import Mathlib

/-!
Verification of the nanobanana MCP server's prompt-normalization and
output-reconciliation pipeline.

Shallow embedding of the Python sources:
  * `src/constants.py`           — deny list, quality keywords, limits, error codes
  * `src/models/schemas.py`      — boolean field coercion validators
  * `src/utils/prompt_optimizer.py` — the full `optimize_prompt` pipeline
  * `src/utils/image_handler.py` — base64 encode/decode, signature sniffing
  * `src/utils/file_manager.py`  — ledger save/query, cache retention sweep
  * `src/tools/generate.py`      — final output-format reconciliation

Python strings are modelled as `List Char` (code points); bytes as `List Nat`
(values `< 256`).  Python string methods used by the sources (`strip`,
`lower`, `replace`, `split`, substring `in`, `startswith`) are implemented
below over `List Char`; `lower` follows Lean's ASCII `Char.toLower`, which
agrees with Python on the ASCII alphabets these functions are applied to.
-/

namespace Nanobanana

/-- Python whitespace characters relevant to `str.strip` / `\s` on the
ASCII range. -/
def isPySpace (c : Char) : Bool :=
  c = ' ' || c = '\t' || c = '\n' || c = '\r' || c = '\x0b' || c = '\x0c'

/-- `str.strip()`: drop leading and trailing whitespace. -/
def pyStrip (l : List Char) : List Char :=
  ((l.dropWhile isPySpace).reverse.dropWhile isPySpace).reverse

/-- `str.lower()` (ASCII). -/
def pyLower (l : List Char) : List Char :=
  l.map Char.toLower

/-- `hay.startswith(needle)` on lists (characters or bytes). -/
def listStartsWith {α : Type} [BEq α] : List α → List α → Bool
  | _, [] => true
  | [], _ :: _ => false
  | c :: cs, d :: ds => c == d && listStartsWith cs ds

/-- Python substring test `needle in hay` on lists: `needle` starts at
some position of `hay` (the empty needle always matches). -/
def listContains {α : Type} [BEq α] : List α → List α → Bool
  | [], needle => listStartsWith [] needle
  | c :: t, needle => listStartsWith (c :: t) needle || listContains t needle

/-- `str.replace(needle, repl)` for a non-empty needle `n0 :: ntail`:
replace every non-overlapping occurrence, scanning left to right.  The
`fuel` argument only makes the recursion structural; every step consumes
at least one character, so any `fuel ≥ length` computes the fixpoint. -/
def listReplaceNE (n0 : Char) (ntail repl : List Char) :
    Nat → List Char → List Char
  | _, [] => []
  | 0, hay => hay
  | fuel + 1, c :: rest =>
    if listStartsWith (c :: rest) (n0 :: ntail) then
      repl ++ listReplaceNE n0 ntail repl fuel (rest.drop ntail.length)
    else
      c :: listReplaceNE n0 ntail repl fuel rest

/-- `str.replace(needle, repl)`; an empty needle never occurs in the
embedded sources, so it is mapped to the identity. -/
def pyReplace (needle repl hay : List Char) : List Char :=
  match needle with
  | [] => hay
  | n0 :: ntail => listReplaceNE n0 ntail repl hay.length hay

/-- `str.split(sep)` for a single-character separator, keeping empty
parts. -/
def splitOnChar (sep : Char) : List Char → List (List Char)
  | [] => [[]]
  | c :: rest =>
    if c = sep then [] :: splitOnChar sep rest
    else
      match splitOnChar sep rest with
      | [] => [[c]]
      | g :: gs => (c :: g) :: gs

/-- `str.split(',')`. -/
def splitOnComma : List Char → List (List Char) :=
  splitOnChar ','

/-- `', '.join(parts)` on character lists. -/
def joinCommaSpace : List (List Char) → List Char
  | [] => []
  | [w] => w
  | w :: ws => w ++ ',' :: ' ' :: joinCommaSpace ws

-- ================================
-- src/constants.py
-- ================================

/-- `MAX_PROMPT_LENGTH` from `constants.py`. -/
def MAX_PROMPT_LENGTH : Nat := 2000

/-- `MIN_PROMPT_LENGTH` from `constants.py`. -/
def MIN_PROMPT_LENGTH : Nat := 3

/-- `QUALITY_KEYWORDS` from `constants.py`. -/
def QUALITY_KEYWORDS : List (List Char) :=
  ["high quality".data, "detailed".data, "sharp".data, "crisp".data,
   "professional".data, "photorealistic".data, "ultra-detailed".data,
   "masterpiece".data, "best quality".data]

/-- `STYLE_PRESETS` from `constants.py` (insertion order preserved). -/
def STYLE_PRESETS : List (String × String) :=
  [("photorealistic", "photorealistic, professional photography, high quality"),
   ("digital_art", "digital art, concept art, detailed illustration"),
   ("oil_painting", "oil painting, classical art, brush strokes"),
   ("watercolor", "watercolor painting, soft colors, artistic"),
   ("cartoon", "cartoon style, animated, colorful, stylized"),
   ("anime", "anime style, manga, japanese animation"),
   ("sketch", "pencil sketch, black and white, hand-drawn"),
   ("vintage", "vintage style, retro, aged, classic")]

/-- `PROHIBITED_KEYWORDS` from `constants.py` (the safety deny list). -/
def PROHIBITED_KEYWORDS : List (List Char) :=
  ["nsfw".data, "explicit".data, "adult".data, "violence".data, "gore".data,
   "hate".data, "discrimination".data, "illegal".data, "harmful".data,
   "dangerous".data]

/-- `ASPECT_RATIOS` from `constants.py`. -/
def ASPECT_RATIOS : List (String × String) :=
  [("square", "1:1"), ("landscape", "16:9"), ("portrait", "9:16"),
   ("widescreen", "21:9"), ("cinema", "2.39:1"), ("photo", "4:3"),
   ("instagram", "1:1"), ("story", "9:16"), ("banner", "3:1")]

/-- `TRANSLATION_RECOMMENDED` from `constants.py`. -/
def TRANSLATION_RECOMMENDED : List String :=
  ["ko", "ja", "zh", "es", "fr", "de", "it", "pt", "ru"]

-- ================================
-- src/models/schemas.py — boolean field coercion (C8)
-- ================================

/-- A raw tool-argument value as it can arrive over the MCP boundary.
Python floats only ever reach the validators through `bool(v)` (a zero
test), so numerics are modelled by `Int`. -/
inductive PyVal where
  | vNone : PyVal
  | vBool : Bool → PyVal
  | vInt : Int → PyVal
  | vStr : List Char → PyVal
deriving DecidableEq, Repr

/-- `GenerateImageRequest.validate_optimize_prompt` from `schemas.py`:
`None` → default `True`; strings via trimmed lowercase membership in the
two literal tuples; `bool` passes through; numeric → `bool(v)`; the
dispatch order (`None`, `str`, `bool`, numeric) follows the source. -/
def validate_optimize_prompt : PyVal → Except (List Char) Bool
  | .vNone => .ok true
  | .vStr s =>
    let sl := pyLower (pyStrip s)
    if sl = "true".data ∨ sl = "1".data ∨ sl = "yes".data ∨ sl = "on".data then
      .ok true
    else if sl = "false".data ∨ sl = "0".data ∨ sl = "no".data ∨ sl = "off".data then
      .ok false
    else
      .error ("optimize_prompt must be a valid boolean string, got: ".data ++ s)
  | .vBool b => .ok b
  | .vInt n => .ok (n != 0)

/-- `BlendImagesRequest.validate_maintain_consistency` from `schemas.py`
(same coercion, different error message). -/
def validate_maintain_consistency : PyVal → Except (List Char) Bool
  | .vNone => .ok true
  | .vStr s =>
    let sl := pyLower (pyStrip s)
    if sl = "true".data ∨ sl = "1".data ∨ sl = "yes".data ∨ sl = "on".data then
      .ok true
    else if sl = "false".data ∨ sl = "0".data ∨ sl = "no".data ∨ sl = "off".data then
      .ok false
    else
      .error ("maintain_consistency must be a valid boolean string, got: ".data ++ s)
  | .vBool b => .ok b
  | .vInt n => .ok (n != 0)

-- ================================
-- src/utils/prompt_optimizer.py — language detection (C9)
-- ================================

/-- The Korean regex class `[ㄱ-ㅎㅏ-ㅣ가-힣]` of `_detect_language`. -/
def isKoreanChar (c : Char) : Bool :=
  (0x3131 ≤ c.val && c.val ≤ 0x314E) ||
  (0x314F ≤ c.val && c.val ≤ 0x3163) ||
  (0xAC00 ≤ c.val && c.val ≤ 0xD7A3)

/-- The "Japanese" regex class `[ひらがなカタカナ]` of `_detect_language`.
In a Python character class this is the literal seven-character set
{ひ, ら, が, な, カ, タ, ナ}, not the Hiragana/Katakana ranges. -/
def isJapaneseClassChar (c : Char) : Bool :=
  c = 'ひ' || c = 'ら' || c = 'が' || c = 'な' ||
  c = 'カ' || c = 'タ' || c = 'ナ'

/-- The Chinese regex class `[一-鿿]` of `_detect_language`. -/
def isCJKChar (c : Char) : Bool :=
  0x4E00 ≤ c.val && c.val ≤ 0x9FFF

/-- The Russian regex class `[а-яё]` of `_detect_language`
(lowercase Cyrillic only; Python `re` is case-sensitive by default). -/
def isCyrillicLowerChar (c : Char) : Bool :=
  (0x430 ≤ c.val && c.val ≤ 0x44F) || c.val = 0x451

/-- `PromptOptimizer._detect_language`: first matching `re.search` wins,
default `"en"`. -/
def detect_language (text : List Char) : String :=
  if text.any isKoreanChar then "ko"
  else if text.any isJapaneseClassChar then "ja"
  else if text.any isCJKChar then "zh"
  else if text.any isCyrillicLowerChar then "ru"
  else "en"

-- ================================
-- src/utils/image_handler.py — base64 (C6)
-- ================================

/-- The standard base64 alphabet, index `0..63` (RFC 4648, as used by
Python's `base64.b64encode`). -/
def b64Char (n : Nat) : Char :=
  if n < 26 then Char.ofNat ('A'.toNat + n)
  else if n < 52 then Char.ofNat ('a'.toNat + (n - 26))
  else if n < 62 then Char.ofNat ('0'.toNat + (n - 52))
  else if n = 62 then '+'
  else '/'

/-- Inverse of the standard base64 alphabet. -/
def b64DecodeChar (c : Char) : Option Nat :=
  if 'A' ≤ c ∧ c ≤ 'Z' then some (c.toNat - 'A'.toNat)
  else if 'a' ≤ c ∧ c ≤ 'z' then some (c.toNat - 'a'.toNat + 26)
  else if '0' ≤ c ∧ c ≤ '9' then some (c.toNat - '0'.toNat + 52)
  else if c = '+' then some 62
  else if c = '/' then some 63
  else none

/-- `base64.b64encode` on a byte list: three bytes per four output
characters, `=`-padded final group. -/
def b64EncodeChunks : List Nat → List Char
  | a :: b :: c :: rest =>
    b64Char (a / 4) :: b64Char (a % 4 * 16 + b / 16) ::
    b64Char (b % 16 * 4 + c / 64) :: b64Char (c % 64) :: b64EncodeChunks rest
  | [a, b] =>
    [b64Char (a / 4), b64Char (a % 4 * 16 + b / 16), b64Char (b % 16 * 4), '=']
  | [a] =>
    [b64Char (a / 4), b64Char (a % 4 * 16), '=', '=']
  | [] => []

/-- `base64.b64decode` on inputs whose characters are drawn from the
standard alphabet with valid `=` padding (the only inputs the embedded
call sites produce); other inputs are rejected with `none`. -/
def b64DecodeChunks : List Char → Option (List Nat)
  | [] => some []
  | c1 :: c2 :: c3 :: c4 :: rest =>
    match b64DecodeChar c1, b64DecodeChar c2 with
    | some v1, some v2 =>
      if c3 = '=' then
        (if c4 = '=' ∧ rest = [] then some [v1 * 4 + v2 / 16] else none)
      else
        match b64DecodeChar c3 with
        | some v3 =>
          if c4 = '=' then
            (if rest = [] then some [v1 * 4 + v2 / 16, v2 % 16 * 16 + v3 / 4]
             else none)
          else
            match b64DecodeChar c4, b64DecodeChunks rest with
            | some v4, some tail =>
              some ((v1 * 4 + v2 / 16) :: (v2 % 16 * 16 + v3 / 4) ::
                    (v3 % 4 * 64 + v4) :: tail)
            | _, _ => none
        | none => none
    | _, _ => none
  | _ => none

/-- `ImageHandler.bytes_to_base64`: `base64.b64encode(b).decode('utf-8')`. -/
def bytes_to_base64 (image_bytes : List Nat) : List Char :=
  b64EncodeChunks image_bytes

/-- The character translation done by `clean_string.replace('-', '+').replace('_', '/')`
in `base64_to_bytes` (and inside `base64.urlsafe_b64decode`). -/
def urlToStdChar (c : Char) : Char :=
  if c = '-' then '+' else if c = '_' then '/' else c

/-- The padding step of `base64_to_bytes`: append `=` until the length is
a multiple of four. -/
def pyPad (l : List Char) : List Char :=
  if l.length % 4 = 0 then l
  else l ++ List.replicate (4 - l.length % 4) '='

/-- The URL-safe-to-standard translation step of `base64_to_bytes`:
`if '-' in clean_string or '_' in clean_string: ... replace('-', '+').replace('_', '/')`. -/
def b64UrlNormalize (clean : List Char) : List Char :=
  if clean.contains '-' || clean.contains '_' then clean.map urlToStdChar
  else clean

/-- `ImageHandler.base64_to_bytes` on a string argument: strip, translate
URL-safe characters when present, pad to a multiple of four, then try the
standard decode and fall back to `base64.urlsafe_b64decode` (which
translates the URL-safe characters and decodes again). -/
def base64_to_bytes (base64_string : List Char) : Option (List Nat) :=
  match b64DecodeChunks (pyPad (b64UrlNormalize (pyStrip base64_string))) with
  | some bs => some bs
  | none =>
    b64DecodeChunks
      ((pyPad (b64UrlNormalize (pyStrip base64_string))).map urlToStdChar)

/-- The standard-to-URL-safe character translation (`+`→`-`, `/`→`_`)
used to form a URL-safe base64 encoding. -/
def stdToUrlChar (c : Char) : Char :=
  if c = '+' then '-' else if c = '/' then '_' else c

/-- Drop trailing `=` padding characters. -/
def dropTrailingPad (l : List Char) : List Char :=
  (l.reverse.dropWhile (fun c => c = '=')).reverse

/-- The URL-safe base64 encoding of a byte list with its `=` padding
stripped: `-`/`_` in place of `+`/`/`, no trailing `=` (the input shape
named by the spec's URL-safe decoding clause). -/
def urlsafeNoPadEncode (image_bytes : List Nat) : List Char :=
  dropTrailingPad ((b64EncodeChunks image_bytes).map stdToUrlChar)

-- ================================
-- src/utils/prompt_optimizer.py — the optimize_prompt pipeline
-- ================================

/-- The slice of `Settings` (`config.py`) the optimizer reads. -/
structure OptSettings where
  auto_translate : Bool
deriving DecidableEq, Repr

/-- `PromptCategory` from `prompt_optimizer.py`. -/
inductive PromptCategory where
  | generation
  | editing
  | blending
  | style_transfer
deriving DecidableEq, BEq, Repr

/-- `PromptOptimizerError(message, code)`. -/
structure PromptOptimizerError where
  message : List Char
  code : Option String
deriving DecidableEq, Repr

/-- `PromptOptimizer._validate_prompt`: empty / too-short / too-long checks,
in source order, with the `ERROR_CODES` codes. -/
def validate_prompt (prompt : List Char) : Except PromptOptimizerError Unit :=
  if prompt = [] ∨ pyStrip prompt = [] then
    .error ⟨"Prompt cannot be empty".data, some "E203"⟩
  else if prompt.length < MIN_PROMPT_LENGTH then
    .error ⟨"Prompt too short (minimum 3 characters)".data, some "E203"⟩
  else if prompt.length > MAX_PROMPT_LENGTH then
    .error ⟨"Prompt too long (maximum 2000 characters)".data, some "E201"⟩
  else
    .ok ()

/-- `PromptOptimizer._check_safety`: first deny-list keyword that occurs
case-insensitively as a substring raises the `PROMPT_UNSAFE` (`E202`)
error. -/
def check_safety (prompt : List Char) : Except PromptOptimizerError Unit :=
  match PROHIBITED_KEYWORDS.find? (fun kw => listContains (pyLower prompt) kw) with
  | some kw => .error ⟨"Prompt contains unsafe content: ".data ++ kw, some "E202"⟩
  | none => .ok ()

/-- The `korean_translations` table of `_simple_translate`
(insertion order preserved). -/
def korean_translations : List (List Char × List Char) :=
  [("고양이".data, "cat".data), ("강아지".data, "dog".data),
   ("꽃".data, "flower".data), ("나무".data, "tree".data),
   ("하늘".data, "sky".data), ("바다".data, "ocean".data),
   ("산".data, "mountain".data), ("집".data, "house".data),
   ("자동차".data, "car".data), ("사람".data, "person".data),
   ("아름다운".data, "beautiful".data), ("예쁜".data, "pretty".data),
   ("멋진".data, "cool".data), ("큰".data, "big".data),
   ("작은".data, "small".data)]

/-- `PromptOptimizer._simple_translate`: sequential `str.replace` over the
Korean table for `"ko"`, identity for every other language. -/
def simple_translate (text : List Char) (source_lang : String) : List Char :=
  if source_lang = "ko" then
    korean_translations.foldl (fun acc kv => pyReplace kv.1 kv.2 acc) text
  else
    text

/-- `PromptOptimizer._translate_if_needed`: the in-memory translation
cache (`self._translation_cache`) is modelled as an association list keyed
by the exact source string. -/
def translate_if_needed (cache : List (List Char × List Char))
    (prompt : List Char) : List Char :=
  let detected := detect_language prompt
  if detected = "en" then prompt
  else if ¬ TRANSLATION_RECOMMENDED.contains detected then prompt
  else
    match List.lookup prompt cache with
    | some cached => cached
    | none => simple_translate prompt detected

/-- The states the in-memory translation cache can reach: every entry was
stored by `_translate_if_needed` as `_simple_translate(prompt, detected)`
for its own key. -/
def TranslationCacheWF (cache : List (List Char × List Char)) : Prop :=
  ∀ p t, (p, t) ∈ cache → t = simple_translate p (detect_language p)

/-- The `category_prefixes` table of `_apply_category_optimization`. -/
def category_prefixes : List (PromptCategory × List Char) :=
  [(.generation, "Generate an image of".data),
   (.editing, "Edit this image to".data),
   (.blending, "Blend these images to create".data),
   (.style_transfer, "Apply the style of".data)]

/-- `PromptOptimizer._apply_category_optimization`: prepend the category
lead-in unless the prompt already starts (case-insensitively) with any of
the four lead-ins. -/
def apply_category_optimization (prompt : List Char)
    (category : PromptCategory) : List Char :=
  let pl := pyLower prompt
  let has_pre := category_prefixes.any (fun pr => listStartsWith pl (pyLower pr.2))
  if ¬ has_pre then
    match List.lookup category category_prefixes with
    | some pre => pre ++ ' ' :: prompt
    | none => prompt
  else prompt

/-- `style_keywords.lower().split(", ")`: split on the two-character
separator `", "`. -/
def splitOnCommaSpace : List Char → List (List Char)
  | [] => [[]]
  | ',' :: ' ' :: rest => [] :: splitOnCommaSpace rest
  | c :: rest =>
    match splitOnCommaSpace rest with
    | [] => [[c]]
    | g :: gs => (c :: g) :: gs

/-- `PromptOptimizer._apply_style`: append the preset's descriptor words
that are not yet substrings of the prompt. -/
def apply_style (prompt : List Char) (style : String) : List Char :=
  match List.lookup style STYLE_PRESETS with
  | some style_keywords =>
    let pl := pyLower prompt
    let style_words := splitOnCommaSpace (pyLower style_keywords.data)
    let missing_words := style_words.filter (fun w => ¬ listContains pl w)
    if missing_words ≠ [] then
      prompt ++ ", ".data ++ joinCommaSpace missing_words
    else prompt
  | none => prompt

/-- `PromptOptimizer._enhance_quality`: append tier-specific quality
keywords when none of `QUALITY_KEYWORDS` occurs in the prompt. -/
def enhance_quality (prompt : List Char) (quality_level : Option String) :
    List Char :=
  let pl := pyLower prompt
  let has_quality := QUALITY_KEYWORDS.any (fun kw => listContains pl kw)
  if ¬ has_quality then
    let quality_additions :=
      if quality_level = some "high" then "high quality, detailed, professional"
      else if quality_level = some "medium" then "good quality, clear"
      else "high quality, detailed"
    prompt ++ ", ".data ++ quality_additions.data
  else prompt

/-- `PromptOptimizer._add_aspect_ratio`: append `"<ratio> aspect ratio"`
unless `"aspect ratio"` or `"ratio"` already occurs; named presets resolve
through `ASPECT_RATIOS`. -/
def add_aspect_ratio (prompt : List Char) (aspect_ratio : String) :
    List Char :=
  if ¬ listContains (pyLower prompt) "aspect ratio".data ∧
     ¬ listContains (pyLower prompt) "ratio".data then
    let ratio_value := (List.lookup aspect_ratio ASPECT_RATIOS).getD aspect_ratio
    prompt ++ ", ".data ++ ratio_value.data ++ " aspect ratio".data
  else prompt

/-- `PromptOptimizer._add_keywords`: append caller keywords not already
contained (case-insensitively) in the prompt; the containment check uses
the prompt as it was on entry. -/
def add_keywords (prompt : List Char) (keywords : List (List Char)) :
    List Char :=
  let pl := pyLower prompt
  let new_keywords := keywords.filter (fun kw => ¬ listContains pl (pyLower kw))
  if new_keywords ≠ [] then
    prompt ++ ", ".data ++ joinCommaSpace new_keywords
  else prompt

/-- `re.sub(r'\s+', ' ', s)`: collapse each maximal whitespace run to a
single space. -/
def collapseWs : List Char → List Char
  | [] => []
  | [c] => if isPySpace c then [' '] else [c]
  | c :: d :: rest =>
    if isPySpace c && isPySpace d then collapseWs (d :: rest)
    else (if isPySpace c then ' ' else c) :: collapseWs (d :: rest)

/-- `re.sub(r',\s*,+', ',', s)`: a comma, optional whitespace and a
greedy run of commas collapse to one comma; scanning resumes after the
match.  `fuel` only makes the recursion structural (each step consumes at
least one character). -/
def reSubCommaRunsGo : Nat → List Char → List Char
  | _, [] => []
  | 0, l => l
  | fuel + 1, c :: rest =>
    if c = ',' then
      let afterWs := rest.dropWhile isPySpace
      if afterWs.headD 'x' = ',' then
        ',' :: reSubCommaRunsGo fuel (afterWs.dropWhile (fun x => x = ','))
      else
        ',' :: reSubCommaRunsGo fuel rest
    else
      c :: reSubCommaRunsGo fuel rest

/-- `re.sub(r',\s*,+', ',', s)`. -/
def reSubCommaRuns (l : List Char) : List Char :=
  reSubCommaRunsGo l.length l

/-- `re.sub(r',\s*', ', ', s)`: every comma plus following whitespace is
normalised to `", "`.  `fuel` only makes the recursion structural. -/
def reSubCommaSpacingGo : Nat → List Char → List Char
  | _, [] => []
  | 0, l => l
  | fuel + 1, c :: rest =>
    if c = ',' then
      ',' :: ' ' :: reSubCommaSpacingGo fuel (rest.dropWhile isPySpace)
    else
      c :: reSubCommaSpacingGo fuel rest

/-- `re.sub(r',\s*', ', ', s)`. -/
def reSubCommaSpacing (l : List Char) : List Char :=
  reSubCommaSpacingGo l.length l

/-- `s.rstrip(', ')`: strip trailing commas and spaces. -/
def rstripCommaSpace (l : List Char) : List Char :=
  (l.reverse.dropWhile (fun c => c = ',' || c = ' ')).reverse

/-- The clause-deduplication loop of `_optimize_structure`: keep the first
occurrence of each clause (case-insensitive key), drop empty clauses, and
record kept keys in `seen`. -/
def dedupClauses (seen : List (List Char)) : List (List Char) → List (List Char)
  | [] => []
  | w :: ws =>
    let wl := pyLower w
    if ¬ seen.contains wl ∧ w ≠ [] then
      w :: dedupClauses (wl :: seen) ws
    else
      dedupClauses seen ws

/-- `PromptOptimizer._optimize_structure`: the five clean-up passes in
source order. -/
def optimize_structure (prompt : List Char) : List Char :=
  let p1 := collapseWs (pyStrip prompt)
  let p2 := reSubCommaRuns p1
  let p3 := reSubCommaSpacing p2
  let p4 := rstripCommaSpace p3
  let words := (splitOnComma p4).map pyStrip
  joinCommaSpace (dedupClauses [] words)

/-- The local truncation computed (and then discarded) by
`_validate_final_prompt`: `prompt[:MAX_PROMPT_LENGTH].rsplit(',', 1)[0]`
when the prompt exceeds the limit. -/
def validate_final_prompt_local (prompt : List Char) : List Char :=
  if prompt.length > MAX_PROMPT_LENGTH then
    let cut := prompt.take MAX_PROMPT_LENGTH
    let rev := cut.reverse
    if rev.any (fun c => c = ',') then
      ((rev.dropWhile (fun c => ¬ c = ',')).drop 1).reverse
    else cut
  else prompt

/-- `PromptOptimizer.optimize_prompt`: stages 1–10 in source order. The
translation cache is the `settings`-independent instance state; Python
truthiness of `style` / `aspect_ratio` / `additional_keywords` guards the
respective stages. Stage 10 (`_validate_final_prompt`) has no effect on
the returned value: its truncation is assigned to a local variable only. -/
def optimize_prompt (settings : OptSettings)
    (cache : List (List Char × List Char)) (prompt : List Char)
    (category : PromptCategory) (aspect_ratio : Option String)
    (style : Option String) (quality_level : Option String)
    (additional_keywords : Option (List (List Char))) :
    Except PromptOptimizerError (List Char) := do
  _ ← validate_prompt prompt
  let optimized := prompt
  let optimized :=
    if settings.auto_translate then translate_if_needed cache optimized
    else optimized
  _ ← check_safety optimized
  let optimized := apply_category_optimization optimized category
  let optimized :=
    match style with
    | some st => if st ≠ "" then apply_style optimized st else optimized
    | none => optimized
  let optimized := enhance_quality optimized quality_level
  let optimized :=
    match aspect_ratio with
    | some ar => if ar ≠ "" then add_aspect_ratio optimized ar else optimized
    | none => optimized
  let optimized :=
    match additional_keywords with
    | some ks => if ks ≠ [] then add_keywords optimized ks else optimized
    | none => optimized
  let optimized := optimize_structure optimized
  return optimized

-- ================================
-- src/utils/file_manager.py — retention sweep (C4)
-- ================================

/-- A file as seen by the sweep: `underCacheDir` marks membership in the
`cache_dir` tree that `Path.rglob` scans; `mtime` is `st_mtime` in
seconds; `size` is `st_size` in bytes. -/
structure FsFile where
  path : String
  underCacheDir : Bool
  mtime : Int
  size : Nat
deriving DecidableEq, Repr

/-- The slice of `Settings` (`config.py`) the file manager reads:
`cache_expiry` is in hours, `max_cache_size` in MB. -/
structure FmSettings where
  enable_cache : Bool
  cache_expiry : Int
  max_cache_size : Nat
deriving DecidableEq, Repr

/-- Stable insertion (ascending `st_mtime`) used to model
`files_with_time.sort(key=lambda x: x[2])`. -/
def insertByMtime (f : FsFile) : List FsFile → List FsFile
  | [] => [f]
  | g :: gs =>
    if f.mtime ≤ g.mtime then f :: g :: gs else g :: insertByMtime f gs

/-- `list.sort` by `st_mtime`, oldest first. -/
def sortByMtime (fs : List FsFile) : List FsFile :=
  fs.foldr insertByMtime []

/-- The selection loop of `_get_oldest_cache_files`: accumulate files
until the accumulated size reaches `target_size`. -/
def takeUntilSize (target_size : Nat) : List FsFile → List FsFile
  | [] => []
  | f :: rest =>
    f :: (if target_size ≤ f.size then [] else takeUntilSize (target_size - f.size) rest)

/-- `_find_expired_cache_files`: cache-tree files strictly older than
`now - cache_expiry` hours. -/
def find_expired_cache_files (s : FmSettings) (now : Int) (fs : List FsFile) :
    List FsFile :=
  (fs.filter (·.underCacheDir)).filter (fun f => f.mtime < now - s.cache_expiry * 3600)

/-- Total cache size after the age-based deletions of `manage_cache`
(the source's `current_size = cache_stats["total_size"] - freed_space`). -/
def cache_size_after_expiry (s : FmSettings) (now : Int) (fs : List FsFile) :
    Nat :=
  let cacheFiles := fs.filter (·.underCacheDir)
  ((cacheFiles.map (·.size)).sum) -
    (((find_expired_cache_files s now fs).map (·.size)).sum)

/-- `FileManager.manage_cache`, returned as the list of deleted files:
age-expired cache files first; then, while the remaining cache size still
exceeds `max_cache_size` MB, the oldest remaining cache files until the
overage is covered (`_get_oldest_cache_files` rescans the tree after the
expiry deletions).  Deletions are assumed to succeed (no `unlink` error
path). -/
def manage_cache (s : FmSettings) (now : Int) (fs : List FsFile) :
    List FsFile :=
  if ¬ s.enable_cache then []
  else
    let cutoff := now - s.cache_expiry * 3600
    let expired := find_expired_cache_files s now fs
    let max_cache_size_bytes := s.max_cache_size * 1024 * 1024
    let current_size := cache_size_after_expiry s now fs
    if current_size > max_cache_size_bytes then
      let remaining := (fs.filter (·.underCacheDir)).filter (fun f => ¬ f.mtime < cutoff)
      expired ++ takeUntilSize (current_size - max_cache_size_bytes) (sortByMtime remaining)
    else expired

-- ================================
-- src/utils/file_manager.py — ledger save and history (C5, C10)
-- ================================

/-- One ledger entry as written by `save_image_with_metadata`. The
caller-supplied `**metadata` payload is kept in `extra`; no call site in
the repository passes any of the reserved image keys below, so the dict
spread is modelled as non-overriding extra fields. -/
structure ImageRecord where
  filename : String
  filepath : String
  operation_type : String
  created_at : String
  file_size : Nat
  format : String
  prompt : Option (List Char)
  hash : String
  extra : List (String × String)
deriving DecidableEq, Repr

/-- The parsed `metadata.json` document: `{"images": [...], "last_updated": ...}`. -/
structure LedgerMeta where
  images : List ImageRecord
  last_updated : Option String
deriving DecidableEq, Repr

/-- The on-disk state of the ledger file: nonexistent, unreadable
(`json.load` raises), or parsed. -/
inductive MetaFile where
  | missing
  | corrupt
  | ok (m : LedgerMeta)
deriving DecidableEq, Repr

/-- `FileManager._save_metadata`: load-or-initialise, append, rewrite.
A corrupt ledger makes `json.load` raise; the exception is caught and
logged, leaving the file unchanged. -/
def save_metadata (mf : MetaFile) (now : String) (rec : ImageRecord) :
    MetaFile :=
  match mf with
  | .missing => .ok ⟨[rec], some now⟩
  | .corrupt => .corrupt
  | .ok m => .ok ⟨m.images ++ [rec], some now⟩

/-- `FileManager.save_image_with_metadata` on the successful path:
the binary write succeeds, the record is built with
`file_size = len(image_data)` and `hash = sha256(image_data).hexdigest()`
and appended to the ledger.  `sha256_hex` abstracts `hashlib.sha256`;
`now` abstracts `datetime.now().isoformat()`; `filename`/`filepath`
abstract `generate_filename` (timestamp-dependent). -/
def save_image_with_metadata (sha256_hex : List Nat → String)
    (mf : MetaFile) (now : String) (filename filepath : String)
    (image_data : List Nat) (operation_type : String)
    (metadata : List (String × String)) (prompt : Option (List Char))
    (output_format : String) : MetaFile × ImageRecord :=
  let file_metadata : ImageRecord :=
    { filename := filename
      filepath := filepath
      operation_type := operation_type
      created_at := now
      file_size := image_data.length
      format := output_format
      prompt := prompt
      hash := sha256_hex image_data
      extra := metadata }
  (save_metadata mf now file_metadata, file_metadata)

/-- Stable insertion (descending `created_at`) used to model
`images.sort(key=lambda x: x.get("created_at", ""), reverse=True)`. -/
def insertByCreatedDesc (r : ImageRecord) : List ImageRecord → List ImageRecord
  | [] => [r]
  | g :: gs =>
    if g.created_at ≤ r.created_at then r :: g :: gs
    else g :: insertByCreatedDesc r gs

/-- `list.sort(..., reverse=True)` by `created_at`, newest first. -/
def sortByCreatedDesc (rs : List ImageRecord) : List ImageRecord :=
  rs.foldr insertByCreatedDesc []

/-- Python's `images[:limit]` slice for an integer `limit` (negative
values count from the end). -/
def pySliceTake (l : Int) (xs : List ImageRecord) : List ImageRecord :=
  if 0 ≤ l then xs.take l.toNat
  else xs.take ((xs.length : Int) + l).toNat

/-- `FileManager.get_image_history`: missing file or failed parse yield
`[]`; optional operation-type filter and `images[:limit]` slice follow
Python truthiness (`if operation_type:` / `if limit:`). -/
def get_image_history (mf : MetaFile) (limit : Option Int)
    (operation_type : Option String) : List ImageRecord :=
  match mf with
  | .missing => []
  | .corrupt => []
  | .ok m =>
    let images := m.images
    let images :=
      match operation_type with
      | some op =>
        if op ≠ "" then images.filter (fun r => r.operation_type = op)
        else images
      | none => images
    let images := sortByCreatedDesc images
    match limit with
    | some l => if l ≠ 0 then pySliceTake l images else images
    | none => images

/-- The `images` array held by a ledger state. -/
def ledgerImages : MetaFile → List ImageRecord
  | .missing => []
  | .corrupt => []
  | .ok m => m.images

-- ================================
-- src/tools/generate.py — output-format reconciliation (C1)
-- ================================

/-- The signature table of `ImageHandler.validate_image_data`
(`png`, `jpeg`, `webp`/RIFF, `gif`, `bmp`, in source order). -/
def image_signatures : List (String × List Nat) :=
  [("png", [0x89, 0x50, 0x4E, 0x47, 0x0D, 0x0A, 0x1A, 0x0A]),
   ("jpeg", [0xFF, 0xD8, 0xFF]),
   ("webp", [0x52, 0x49, 0x46, 0x46]),
   ("gif", [0x47, 0x49, 0x46, 0x38]),
   ("bmp", [0x42, 0x4D])]

/-- The `detected_format` computed by `validate_image_data`: first
matching signature, with the extra RIFF/`WEBP` container check. -/
def detected_format_of (data : List Nat) : Option String :=
  let d0 :=
    match image_signatures.find? (fun sig => listStartsWith data sig.2) with
    | some sig => some sig.1
    | none => none
  match d0 with
  | some fmt =>
    if fmt = "webp" ∧ data.length > 12 then
      if ¬ ((data.drop 8).take 4 = [0x57, 0x45, 0x42, 0x50]) then none
      else some fmt
    else some fmt
  | none => none

/-- `actual_mime_type.split('/')[-1]`. -/
def mimeSubtype (m : String) : String :=
  ⟨(splitOnChar '/' m.data).getLastD m.data⟩

/-- The format derived from a MIME string in `nanobanana_generate`:
`actual_mime_type.split('/')[-1].lower().replace('jpg', 'jpeg')`. -/
def mime_to_format (m : String) : String :=
  ⟨pyReplace "jpg".data "jpeg".data (pyLower (mimeSubtype m).data)⟩

/-- The `final_output_format` decision of `nanobanana_generate`
(lines 172–240): the MIME type declared in the provider's dict (Python
truthiness: `''` counts as absent) wins; otherwise a MIME type is
inferred from the byte signature of the decoded payload; otherwise the
caller's requested format is used. -/
def final_output_format (mime_type : Option String) (data : List Nat)
    (requested_format : String) : String :=
  let actual0 : Option String :=
    match mime_type with
    | some m => if m ≠ "" then some m else none
    | none => none
  let actual : Option String :=
    match actual0 with
    | some m => some m
    | none =>
      match detected_format_of data with
      | some fmt => some ("image/" ++ fmt)
      | none => none
  match actual with
  | some m => mime_to_format m
  | none => requested_format

/-- Modelled from the spec: the format the claim says a declared MIME
type yields — "the MIME subtype after `/` lowercased, with any parameters
after `;` stripped and `jpg` normalized to `jpeg`".  Used only to compare
the claim's wording with `mime_to_format`. -/
def spec_mime_format (m : String) : String :=
  let sub := mimeSubtype m
  let noParams := (splitOnChar ';' sub.data).headD sub.data
  let low : String := ⟨pyLower noParams⟩
  if low = "jpg" then "jpeg" else low

-- ================================
-- Helper lemmas
-- ================================

theorem mem_of_listStartsWith {α : Type} [BEq α] [LawfulBEq α] :
    ∀ (t n : List α), listStartsWith t n = true → ∀ c ∈ n, c ∈ t := by
  intro t
  induction t with
  | nil =>
    intro n h c hc
    cases n with
    | nil => cases hc
    | cons d ds => simp [listStartsWith] at h
  | cons a t ih =>
    intro n h c hc
    cases n with
    | nil => cases hc
    | cons d ds =>
      simp only [listStartsWith, Bool.and_eq_true, beq_iff_eq] at h
      rcases List.mem_cons.mp hc with rfl | hc'
      · exact h.1 ▸ List.mem_cons_self a t
      · exact List.mem_cons_of_mem a (ih ds h.2 c hc')

theorem listContains_eq_false_of_witness {α : Type} [BEq α] [LawfulBEq α]
    {c : α} : ∀ {hay needle : List α}, c ∈ needle → c ∉ hay →
    listContains hay needle = false := by
  intro hay
  induction hay with
  | nil =>
    intro needle hc _
    cases needle with
    | nil => cases hc
    | cons d ds => simp [listContains, listStartsWith]
  | cons a t ih =>
    intro needle hc hn
    simp only [listContains, Bool.or_eq_false_iff]
    refine ⟨?_, ih hc (fun h => hn (List.mem_cons_of_mem a h))⟩
    by_contra hst
    have hsub := mem_of_listStartsWith (a :: t) needle
      (by revert hst; cases listStartsWith (a :: t) needle <;> simp) c hc
    exact hn hsub

theorem listStartsWith_nil {α : Type} [BEq α] (t : List α) :
    listStartsWith t [] = true := by
  cases t <;> rfl

theorem listStartsWith_append_self {α : Type} [BEq α] [LawfulBEq α] :
    ∀ (n rest : List α), listStartsWith (n ++ rest) n = true := by
  intro n
  induction n with
  | nil => intro rest; exact listStartsWith_nil rest
  | cons a t ih => intro rest; simp [listStartsWith, ih]

theorem listContains_append_of_startsWith {α : Type} [BEq α] [LawfulBEq α] :
    ∀ (hay needle : List α), listStartsWith hay needle = true →
    listContains hay needle = true := by
  intro hay needle h
  cases hay with
  | nil => simpa [listContains] using h
  | cons a t => simp [listContains, h]

theorem listContains_cons_of_contains {α : Type} [BEq α] [LawfulBEq α]
    (a : α) (t needle : List α) (h : listContains t needle = true) :
    listContains (a :: t) needle = true := by
  simp [listContains, h]

theorem listContains_of_mem_suffix {α : Type} [BEq α] [LawfulBEq α] :
    ∀ (A needle rest : List α),
    listContains (A ++ (needle ++ rest)) needle = true := by
  intro A
  induction A with
  | nil =>
    intro needle rest
    exact listContains_append_of_startsWith _ _ (listStartsWith_append_self needle rest)
  | cons a t ih =>
    intro needle rest
    exact listContains_cons_of_contains a _ _ (ih needle rest)

-- ================================
-- C9 — language detection
-- ================================

/-- C9: the claim says any text containing a Hiragana/Katakana character
(and no Hangul) is classified `"ja"`, and any text containing Cyrillic
(and none of the earlier scripts) is classified `"ru"`.  The code's
"Japanese" regex `[ひらがなカタカナ]` matches only the seven literal kana
spelling the words, and its Russian class `[а-яё]` is lowercase-only, so
the Hiragana text `"こんにちは"` and the Cyrillic text `"ПРИВЕТ"` both fall
through to the `"en"` default. -/
theorem C9_detect_language_failing_inputs :
    detect_language "こんにちは".data = "en" ∧
    detect_language "ПРИВЕТ".data = "en" ∧
    ("en" ≠ "ja" ∧ "en" ≠ "ru") := by
  refine ⟨by decide, by decide, by decide, by decide⟩

-- ================================
-- C8 — boolean field coercion
-- ================================

/-- C8: boolean-field coercion for `optimize_prompt` and
`maintain_consistency`: `None` → `true`; trimmed lowercased string in
{"true","1","yes","on"} → `true`, in {"false","0","no","off"} → `false`,
any other string → hard validation error; native booleans pass through;
numeric values coerce to `true` iff non-zero. -/
theorem C8_boolean_coercion :
    (validate_optimize_prompt .vNone = .ok true ∧
     validate_maintain_consistency .vNone = .ok true) ∧
    (∀ s : List Char,
      (pyLower (pyStrip s) = "true".data ∨ pyLower (pyStrip s) = "1".data ∨
       pyLower (pyStrip s) = "yes".data ∨ pyLower (pyStrip s) = "on".data) →
      validate_optimize_prompt (.vStr s) = .ok true ∧
      validate_maintain_consistency (.vStr s) = .ok true) ∧
    (∀ s : List Char,
      (pyLower (pyStrip s) = "false".data ∨ pyLower (pyStrip s) = "0".data ∨
       pyLower (pyStrip s) = "no".data ∨ pyLower (pyStrip s) = "off".data) →
      validate_optimize_prompt (.vStr s) = .ok false ∧
      validate_maintain_consistency (.vStr s) = .ok false) ∧
    (∀ s : List Char,
      ¬ (pyLower (pyStrip s) = "true".data ∨ pyLower (pyStrip s) = "1".data ∨
         pyLower (pyStrip s) = "yes".data ∨ pyLower (pyStrip s) = "on".data) →
      ¬ (pyLower (pyStrip s) = "false".data ∨ pyLower (pyStrip s) = "0".data ∨
         pyLower (pyStrip s) = "no".data ∨ pyLower (pyStrip s) = "off".data) →
      (∃ e, validate_optimize_prompt (.vStr s) = .error e) ∧
      (∃ e, validate_maintain_consistency (.vStr s) = .error e)) ∧
    (∀ b : Bool, validate_optimize_prompt (.vBool b) = .ok b ∧
      validate_maintain_consistency (.vBool b) = .ok b) ∧
    (∀ n : Int, (validate_optimize_prompt (.vInt n) = .ok true ↔ n ≠ 0) ∧
      (validate_maintain_consistency (.vInt n) = .ok true ↔ n ≠ 0)) := by
  refine ⟨⟨rfl, rfl⟩, ?_, ?_, ?_, ?_, ?_⟩
  · intro s h
    constructor <;> simp [validate_optimize_prompt, validate_maintain_consistency, h]
  · intro s h
    have h' : ¬ (pyLower (pyStrip s) = "true".data ∨ pyLower (pyStrip s) = "1".data ∨
        pyLower (pyStrip s) = "yes".data ∨ pyLower (pyStrip s) = "on".data) := by
      rcases h with h | h | h | h <;> rw [h] <;> decide
    constructor <;>
      simp [validate_optimize_prompt, validate_maintain_consistency, h, h']
  · intro s h1 h2
    constructor
    · refine ⟨"optimize_prompt must be a valid boolean string, got: ".data ++ s, ?_⟩
      simp only [validate_optimize_prompt]
      rw [if_neg h1, if_neg h2]
    · refine ⟨"maintain_consistency must be a valid boolean string, got: ".data ++ s, ?_⟩
      simp only [validate_maintain_consistency]
      rw [if_neg h1, if_neg h2]
  · intro b
    constructor <;> rfl
  · intro n
    constructor <;>
      simp [validate_optimize_prompt, validate_maintain_consistency]

/-- Witness for C8 at concrete inputs from the spec's examples. -/
theorem C8_boolean_coercion_witness :
    validate_optimize_prompt (.vStr " TRUE ".data) = .ok true ∧
    validate_maintain_consistency (.vStr "off".data) = .ok false ∧
    (∃ e, validate_optimize_prompt (.vStr "maybe".data) = .error e) ∧
    validate_optimize_prompt (.vInt 7) = .ok true := by
  refine ⟨(C8_boolean_coercion.2.1 " TRUE ".data (by decide)).1,
    (C8_boolean_coercion.2.2.1 "off".data (by decide)).2,
    (C8_boolean_coercion.2.2.2.1 "maybe".data (by decide) (by decide)).1,
    ?_⟩
  exact ((C8_boolean_coercion.2.2.2.2.2 7).1).mpr (by decide)

-- ================================
-- C1 — output-format reconciliation
-- ================================

theorem detected_format_of_mem (data : List Nat) (f : String)
    (h : detected_format_of data = some f) :
    f = "png" ∨ f = "jpeg" ∨ f = "webp" ∨ f = "gif" ∨ f = "bmp" := by
  unfold detected_format_of at h
  rcases hfind : image_signatures.find? (fun sig => listStartsWith data sig.2) with _ | sig
  · simp only [hfind] at h
    exact absurd h (by simp)
  · simp only [hfind] at h
    have hmem := List.mem_of_find?_eq_some hfind
    simp only [image_signatures, List.mem_cons, List.not_mem_nil, or_false] at hmem
    rcases hmem with rfl | rfl | rfl | rfl | rfl <;> simp only at h <;>
        [skip; skip; skip; skip; skip] <;> first
      | (simp at h; simp [← h])
      | (split at h <;> [split at h <;> [exact absurd h (by simp);
          (simp at h; simp [← h])]; (simp at h; simp [← h])])

/-- C1 counterexample: the claim says a declared MIME type's parameters
after `;` are stripped, so declared `"image/png;x"` would have to yield
final format `"png"`; the code keeps the parameters and yields
`"png;x"`. -/
theorem C1_format_counterexample :
    final_output_format (some "image/png;x") [] "png" = "png;x" ∧
    spec_mime_format "image/png;x" = "png" ∧
    ("png;x" : String) ≠ "png" := by
  refine ⟨by decide, by decide, by decide⟩

/-- C1 amended: the strict precedence holds, but the format derived from
a declared MIME type is `split('/')[-1].lower().replace('jpg','jpeg')`
with no stripping of `;`-parameters: a non-empty declared MIME type wins
over the requested format regardless of the payload; with no declared
MIME type, byte-signature sniffing decides; with neither, the requested
format is used.  Declared `"image/webp"` with requested `"png"` yields
`"webp"`. -/
theorem C1_format_precedence (m : String) (data : List Nat) (req : String)
    (hm : m ≠ "") :
    final_output_format (some m) data req = mime_to_format m ∧
    final_output_format none data req =
      (match detected_format_of data with
       | some f => f
       | none => req) ∧
    final_output_format (some "image/webp") data "png" = "webp" := by
  refine ⟨?_, ?_, ?_⟩
  · simp [final_output_format, hm]
  · rcases hdet : detected_format_of data with _ | f
    · simp [final_output_format, hdet]
    · have hf := detected_format_of_mem data f hdet
      simp only [final_output_format, hdet]
      rcases hf with h1 | h1 | h1 | h1 | h1 <;> subst h1 <;> decide
  · simp [final_output_format, mime_to_format, mimeSubtype]
    decide

/-- Witness for C1 at the spec's own example. -/
theorem C1_format_precedence_witness :
    final_output_format (some "image/webp") [] "png" = mime_to_format "image/webp" ∧
    mime_to_format "image/webp" = "webp" :=
  ⟨(C1_format_precedence "image/webp" [] "png" (by decide)).1, by decide⟩

-- ================================
-- C4 — retention sweep
-- ================================

theorem mem_takeUntilSize {f : FsFile} :
    ∀ {t : Nat} {l : List FsFile}, f ∈ takeUntilSize t l → f ∈ l := by
  intro t l
  induction l generalizing t with
  | nil => intro h; cases h
  | cons g gs ih =>
    intro h
    simp only [takeUntilSize] at h
    rcases List.mem_cons.mp h with rfl | h'
    · simp
    · split at h'
      · cases h'
      · exact List.mem_cons_of_mem g (ih h')

theorem mem_insertByMtime {f g : FsFile} {l : List FsFile} :
    f ∈ insertByMtime g l ↔ f = g ∨ f ∈ l := by
  induction l with
  | nil => simp [insertByMtime]
  | cons a t ih =>
    simp only [insertByMtime]
    split
    · simp
    · simp only [List.mem_cons, ih]
      tauto

theorem mem_sortByMtime {f : FsFile} {l : List FsFile} :
    f ∈ sortByMtime l ↔ f ∈ l := by
  induction l with
  | nil => simp [sortByMtime]
  | cons a t ih =>
    simp only [sortByMtime, List.foldr_cons] at ih ⊢
    rw [mem_insertByMtime, ih, List.mem_cons]

/-- C4 counterexample: a single cache file written just now (age `0`,
younger than the 24-hour expiry window) is deleted by the sweep as soon
as the cache size cap (1 MB) is exceeded, contradicting the claim that a
file younger than the expiry window is never deleted. -/
theorem C4_young_file_deleted :
    manage_cache ⟨true, 24, 1⟩ 1000000
        [⟨"cache/images/a.png", true, 1000000, 2097152⟩] =
      [⟨"cache/images/a.png", true, 1000000, 2097152⟩] ∧
    ¬ ((1000000 : Int) < 1000000 - 24 * 3600) := by
  refine ⟨by decide, by decide⟩

/-- C4 amended: a single retention sweep only ever deletes files inside
the cache directory tree (never output-ledger files); and whenever the
cache size after the age-based deletions is within the configured cap,
every deleted file is strictly older than the expiry window.  (When the
cap is still exceeded, additional cache files are deleted oldest-first
regardless of age — the behaviour the counterexample exhibits.) -/
theorem C4_sweep_scope (s : FmSettings) (now : Int) (fs : List FsFile) :
    (∀ f ∈ manage_cache s now fs, f.underCacheDir = true) ∧
    (cache_size_after_expiry s now fs ≤ s.max_cache_size * 1024 * 1024 →
      ∀ f ∈ manage_cache s now fs, f.mtime < now - s.cache_expiry * 3600) := by
  have hexp : ∀ f ∈ find_expired_cache_files s now fs,
      f.underCacheDir = true ∧ f.mtime < now - s.cache_expiry * 3600 := by
    intro f hf
    unfold find_expired_cache_files at hf
    have h1 := List.mem_filter.mp hf
    have h2 := List.mem_filter.mp h1.1
    refine ⟨h2.2, by simpa using h1.2⟩
  by_cases hen : s.enable_cache
  · constructor
    · intro f hf
      unfold manage_cache at hf
      rw [if_neg (by simp [hen])] at hf
      simp only at hf
      split at hf
      · rcases List.mem_append.mp hf with h | h
        · exact (hexp f h).1
        · have h1 := mem_sortByMtime.mp (mem_takeUntilSize h)
          have h2 := List.mem_filter.mp h1
          exact (List.mem_filter.mp h2.1).2
      · exact (hexp f hf).1
    · intro hsize f hf
      unfold manage_cache at hf
      rw [if_neg (by simp [hen])] at hf
      simp only at hf
      split at hf
      · omega
      · exact (hexp f hf).2
  · constructor <;> intro <;>
      simp [manage_cache, hen, List.mem_filter] at *

/-- Witness for C4 amended at a concrete state: a young file inside the
cache tree plus the output ledger file, with the cap respected. -/
theorem C4_sweep_scope_witness :
    (∀ f ∈ manage_cache ⟨true, 24, 100⟩ 1000000
        [⟨"outputs/metadata.json", false, 0, 10⟩,
         ⟨"cache/images/a.png", true, 999000, 5⟩],
      f.underCacheDir = true) ∧
    (∀ f ∈ manage_cache ⟨true, 24, 100⟩ 1000000
        [⟨"outputs/metadata.json", false, 0, 10⟩,
         ⟨"cache/images/a.png", true, 999000, 5⟩],
      f.mtime < 1000000 - 24 * 3600) := by
  have h := C4_sweep_scope ⟨true, 24, 100⟩ 1000000
    [⟨"outputs/metadata.json", false, 0, 10⟩, ⟨"cache/images/a.png", true, 999000, 5⟩]
  exact ⟨h.1, h.2 (by decide)⟩

-- ================================
-- C5 / C10 — ledger history
-- ================================

theorem mem_insertByCreatedDesc {r x : ImageRecord} {l : List ImageRecord} :
    x ∈ insertByCreatedDesc r l ↔ x = r ∨ x ∈ l := by
  induction l with
  | nil => simp [insertByCreatedDesc]
  | cons a t ih =>
    simp only [insertByCreatedDesc]
    split
    · simp
    · simp only [List.mem_cons, ih]
      tauto

theorem mem_sortByCreatedDesc {x : ImageRecord} {l : List ImageRecord} :
    x ∈ sortByCreatedDesc l ↔ x ∈ l := by
  induction l with
  | nil => simp [sortByCreatedDesc]
  | cons a t ih =>
    simp only [sortByCreatedDesc, List.foldr_cons] at ih ⊢
    rw [mem_insertByCreatedDesc, ih, List.mem_cons]

theorem sorted_insertByCreatedDesc (r : ImageRecord) (l : List ImageRecord)
    (h : List.Sorted (fun a b => b.created_at ≤ a.created_at) l) :
    List.Sorted (fun a b => b.created_at ≤ a.created_at)
      (insertByCreatedDesc r l) := by
  induction l with
  | nil => simp [insertByCreatedDesc]
  | cons a t ih =>
    simp only [insertByCreatedDesc]
    rcases List.sorted_cons.mp h with ⟨ha, ht⟩
    split
    · rename_i hle
      refine List.sorted_cons.mpr ⟨?_, h⟩
      intro b hb
      rcases List.mem_cons.mp hb with rfl | hb'
      · exact hle
      · exact le_trans (ha b hb') hle
    · rename_i hgt
      refine List.sorted_cons.mpr ⟨?_, ih ht⟩
      intro b hb
      rcases mem_insertByCreatedDesc.mp hb with rfl | hb'
      · exact le_of_not_le hgt
      · exact ha b hb'

theorem sorted_sortByCreatedDesc (l : List ImageRecord) :
    List.Sorted (fun a b => b.created_at ≤ a.created_at)
      (sortByCreatedDesc l) := by
  induction l with
  | nil => simp [sortByCreatedDesc]
  | cons a t ih => exact sorted_insertByCreatedDesc a _ ih

theorem mem_pySliceTake {r : ImageRecord} {l : Int} {xs : List ImageRecord}
    (h : r ∈ pySliceTake l xs) : r ∈ xs := by
  unfold pySliceTake at h
  split at h <;> exact List.mem_of_mem_take h

theorem mem_history_limit {r : ImageRecord} {L : List ImageRecord} :
    ∀ {limit : Option Int},
    r ∈ (match limit with
         | some l =>
           if l ≠ 0 then pySliceTake l (sortByCreatedDesc L)
           else sortByCreatedDesc L
         | none => sortByCreatedDesc L) → r ∈ L := by
  intro limit hr
  cases limit with
  | none => exact mem_sortByCreatedDesc.mp hr
  | some l =>
    simp only at hr
    split at hr
    · exact mem_sortByCreatedDesc.mp (mem_pySliceTake hr)
    · exact mem_sortByCreatedDesc.mp hr

/-- C5: on an initially empty ledger, a successful
`save_image_with_metadata(imageBytes, X, ...)` makes
`get_image_history(operation_type=X)` return exactly that one record,
whose `file_size` is `len(imageBytes)` and whose `hash` is the SHA-256
hex digest of `imageBytes` (the digest function is abstracted); and
`get_image_history` always returns its records newest-first by
`created_at`. -/
theorem C5_ledger_roundtrip :
    (∀ (sha256_hex : List Nat → String) (now filename filepath : String)
       (image_data : List Nat) (op : String)
       (metadata : List (String × String)) (prompt : Option (List Char))
       (fmt : String),
      get_image_history
          (save_image_with_metadata sha256_hex .missing now filename filepath
            image_data op metadata prompt fmt).1 none (some op) =
        [(save_image_with_metadata sha256_hex .missing now filename filepath
            image_data op metadata prompt fmt).2] ∧
      (save_image_with_metadata sha256_hex .missing now filename filepath
          image_data op metadata prompt fmt).2.file_size = image_data.length ∧
      (save_image_with_metadata sha256_hex .missing now filename filepath
          image_data op metadata prompt fmt).2.hash = sha256_hex image_data) ∧
    (∀ (mf : MetaFile) (limit : Option Int) (op : Option String),
      List.Sorted (fun a b => b.created_at ≤ a.created_at)
        (get_image_history mf limit op)) := by
  constructor
  · intro sha256_hex now filename filepath image_data op metadata prompt fmt
    refine ⟨?_, rfl, rfl⟩
    by_cases hop : op = ""
    · subst hop
      simp [save_image_with_metadata, save_metadata, get_image_history,
        sortByCreatedDesc, insertByCreatedDesc]
    · simp [save_image_with_metadata, save_metadata, get_image_history, hop,
        sortByCreatedDesc, insertByCreatedDesc]
  · intro mf limit op
    cases mf with
    | missing => simp [get_image_history]
    | corrupt => simp [get_image_history]
    | ok m =>
      simp only [get_image_history]
      have hsorted := sorted_sortByCreatedDesc
        (match op with
         | some o =>
           if o ≠ "" then m.images.filter (fun r => r.operation_type = o)
           else m.images
         | none => m.images)
      cases limit with
      | none => exact hsorted
      | some l =>
        simp only
        split
        · unfold pySliceTake
          split <;> exact List.Pairwise.sublist (List.take_sublist _ _) hsorted
        · exact hsorted

-- ================================
-- C10 — history totality and bound
-- ================================

/-- C10 counterexample: with `limit = 0` supplied, Python's `if limit:`
is false, the slice is skipped, and the full history (here one record) is
returned — more than the `0` records the claim allows. -/
theorem C10_limit_zero_counterexample :
    (get_image_history
        (.ok ⟨[⟨"f", "p", "generated", "t", 3, "png", none, "h", []⟩], none⟩)
        (some 0) none).length = 1 := by
  decide

/-- C10 amended: `get_image_history` is total — a missing or unreadable
ledger yields `[]` — and for every *positive* limit `n` it returns at
most `n` records, each drawn from the ledger's `images` array and, when a
non-empty operation type is given, matching it.  (A supplied limit of `0`
is falsy in Python and is ignored, as the counterexample shows.) -/
theorem C10_history_total_bounded (mf : MetaFile) (limit : Option Int)
    (op : Option String) :
    (get_image_history .missing limit op = [] ∧
     get_image_history .corrupt limit op = []) ∧
    (∀ n : Int, 0 < n →
      ((get_image_history mf (some n) op).length : Int) ≤ n) ∧
    (∀ r ∈ get_image_history mf limit op,
      r ∈ ledgerImages mf ∧ ∀ s, op = some s → s ≠ "" → r.operation_type = s) := by
  refine ⟨⟨rfl, rfl⟩, ?_, ?_⟩
  · intro n hn
    cases mf with
    | missing => simp [get_image_history]; omega
    | corrupt => simp [get_image_history]; omega
    | ok m =>
      simp only [get_image_history]
      rw [if_pos (by omega : n ≠ 0)]
      unfold pySliceTake
      rw [if_pos (le_of_lt hn)]
      have := List.length_take_le n.toNat (sortByCreatedDesc
        (match op with
         | some o =>
           if o ≠ "" then m.images.filter (fun r => r.operation_type = o)
           else m.images
         | none => m.images))
      omega
  · intro r hr
    cases mf with
    | missing => cases hr
    | corrupt => cases hr
    | ok m =>
      cases op with
      | none =>
        simp only [get_image_history] at hr
        refine ⟨mem_history_limit hr, ?_⟩
        intro s hs
        cases hs
      | some o =>
        by_cases ho : o = ""
        · subst ho
          simp only [get_image_history, ne_eq, not_true_eq_false,
            if_false] at hr
          exact ⟨mem_history_limit hr, by
            intro s hs hne; cases hs; exact absurd rfl hne⟩
        · simp only [get_image_history, ne_eq, ho, not_false_eq_true,
            if_true] at hr
          have h2 := List.mem_filter.mp (mem_history_limit hr)
          refine ⟨h2.1, ?_⟩
          intro s hs _
          cases hs
          simpa using h2.2

/-- Witness for C10 amended at a concrete ledger. -/
theorem C10_history_total_bounded_witness :
    ((get_image_history
        (.ok ⟨[⟨"f", "p", "generated", "t", 3, "png", none, "h", []⟩,
               ⟨"g", "q", "edited", "u", 4, "png", none, "i", []⟩], none⟩)
        (some 1) none).length : Int) ≤ 1 ∧
    (∀ r ∈ get_image_history
        (.ok ⟨[⟨"f", "p", "generated", "t", 3, "png", none, "h", []⟩,
               ⟨"g", "q", "edited", "u", 4, "png", none, "i", []⟩], none⟩)
        (some 1) (some "edited"),
      r.operation_type = "edited") := by
  constructor
  · exact (C10_history_total_bounded
      (.ok ⟨[⟨"f", "p", "generated", "t", 3, "png", none, "h", []⟩,
             ⟨"g", "q", "edited", "u", 4, "png", none, "i", []⟩], none⟩)
      (some 1) none).2.1 1 (by decide)
  · intro r hr
    exact ((C10_history_total_bounded
      (.ok ⟨[⟨"f", "p", "generated", "t", 3, "png", none, "h", []⟩,
             ⟨"g", "q", "edited", "u", 4, "png", none, "i", []⟩], none⟩)
      (some 1) (some "edited")).2.2 r hr).2 "edited" rfl (by decide)

-- ================================
-- C6 — base64 round trips
-- ================================

theorem b64DecodeChar_b64Char : ∀ n < 64, b64DecodeChar (b64Char n) = some n := by
  decide

theorem b64Char_props : ∀ n < 64, b64Char n ≠ '=' ∧ b64Char n ≠ '-' ∧
    b64Char n ≠ '_' ∧ isPySpace (b64Char n) = false ∧
    urlToStdChar (stdToUrlChar (b64Char n)) = b64Char n ∧
    isPySpace (stdToUrlChar (b64Char n)) = false := by
  decide

theorem b64Encode_chars : ∀ (bs : List Nat), (∀ b ∈ bs, b < 256) →
    ∀ c ∈ b64EncodeChunks bs, (∃ n, n < 64 ∧ c = b64Char n) ∨ c = '='
  | [] => by intro _ c hc; cases hc
  | [a] => by
    intro h c hc
    have ha : a < 256 := h a (by simp)
    simp only [b64EncodeChunks, List.mem_cons, List.not_mem_nil, or_false] at hc
    rcases hc with rfl | rfl | rfl | rfl
    · exact Or.inl ⟨a / 4, by omega, rfl⟩
    · exact Or.inl ⟨a % 4 * 16, by omega, rfl⟩
    · exact Or.inr rfl
    · exact Or.inr rfl
  | [a, b] => by
    intro h c hc
    have ha : a < 256 := h a (by simp)
    have hb : b < 256 := h b (by simp)
    simp only [b64EncodeChunks, List.mem_cons, List.not_mem_nil, or_false] at hc
    rcases hc with rfl | rfl | rfl | rfl
    · exact Or.inl ⟨a / 4, by omega, rfl⟩
    · exact Or.inl ⟨a % 4 * 16 + b / 16, by omega, rfl⟩
    · exact Or.inl ⟨b % 16 * 4, by omega, rfl⟩
    · exact Or.inr rfl
  | a :: b :: c0 :: rest => by
    intro h c hc
    have ha : a < 256 := h a (by simp)
    have hb : b < 256 := h b (by simp)
    have hc0 : c0 < 256 := h c0 (by simp)
    simp only [b64EncodeChunks, List.mem_cons] at hc
    rcases hc with rfl | rfl | rfl | rfl | hmem
    · exact Or.inl ⟨a / 4, by omega, rfl⟩
    · exact Or.inl ⟨a % 4 * 16 + b / 16, by omega, rfl⟩
    · exact Or.inl ⟨b % 16 * 4 + c0 / 64, by omega, rfl⟩
    · exact Or.inl ⟨c0 % 64, by omega, rfl⟩
    · exact b64Encode_chars rest (fun x hx => h x (by simp [hx])) c hmem

theorem b64Encode_char_facts (bs : List Nat) (h : ∀ b ∈ bs, b < 256) :
    ∀ c ∈ b64EncodeChunks bs, c ≠ '-' ∧ c ≠ '_' ∧ isPySpace c = false ∧
      urlToStdChar (stdToUrlChar c) = c ∧
      isPySpace (stdToUrlChar c) = false := by
  intro c hc
  rcases b64Encode_chars bs h c hc with ⟨n, hn, rfl⟩ | rfl
  · have hp := b64Char_props n hn
    exact ⟨hp.2.1, hp.2.2.1, hp.2.2.2.1, hp.2.2.2.2.1, hp.2.2.2.2.2⟩
  · exact ⟨by decide, by decide, by decide, by decide, by decide⟩

theorem b64Encode_length_mod : ∀ bs : List Nat,
    (b64EncodeChunks bs).length % 4 = 0
  | [] => rfl
  | [_] => by simp [b64EncodeChunks]
  | [_, _] => by simp [b64EncodeChunks]
  | a :: b :: c :: rest => by
    have ih := b64Encode_length_mod rest
    simp only [b64EncodeChunks, List.length_cons]
    omega

theorem b64_decode_encode : ∀ bs : List Nat, (∀ x ∈ bs, x < 256) →
    b64DecodeChunks (b64EncodeChunks bs) = some bs
  | [] => fun _ => rfl
  | [a] => fun h => by
    have ha : a < 256 := h a (by simp)
    have h1 := b64DecodeChar_b64Char (a / 4) (by omega)
    have h2 := b64DecodeChar_b64Char (a % 4 * 16) (by omega)
    simp only [b64EncodeChunks, b64DecodeChunks, h1, h2, if_pos rfl,
      and_self, reduceIte]
    simp
    all_goals omega
  | [a, b] => fun h => by
    have ha : a < 256 := h a (by simp)
    have hb : b < 256 := h b (by simp)
    have h1 := b64DecodeChar_b64Char (a / 4) (by omega)
    have h2 := b64DecodeChar_b64Char (a % 4 * 16 + b / 16) (by omega)
    have h3 := b64DecodeChar_b64Char (b % 16 * 4) (by omega)
    have hne3 := (b64Char_props (b % 16 * 4) (by omega)).1
    simp only [b64EncodeChunks, b64DecodeChunks, h1, h2, h3, if_neg hne3,
      if_pos rfl, reduceIte]
    simp
    all_goals omega
  | a :: b :: c :: rest => fun h => by
    have ha : a < 256 := h a (by simp)
    have hb : b < 256 := h b (by simp)
    have hc : c < 256 := h c (by simp)
    have hrest : ∀ x ∈ rest, x < 256 := fun x hx => h x (by simp [hx])
    have ih := b64_decode_encode rest hrest
    have h1 := b64DecodeChar_b64Char (a / 4) (by omega)
    have h2 := b64DecodeChar_b64Char (a % 4 * 16 + b / 16) (by omega)
    have h3 := b64DecodeChar_b64Char (b % 16 * 4 + c / 64) (by omega)
    have h4 := b64DecodeChar_b64Char (c % 64) (by omega)
    have hne3 := (b64Char_props (b % 16 * 4 + c / 64) (by omega)).1
    have hne4 := (b64Char_props (c % 64) (by omega)).1
    simp only [b64EncodeChunks, b64DecodeChunks, h1, h2, h3, h4,
      if_neg hne3, if_neg hne4, ih]
    simp
    all_goals omega

theorem dropWhile_eq_self_of_none {p : Char → Bool} {l : List Char}
    (h : ∀ c ∈ l, p c = false) : l.dropWhile p = l := by
  cases l with
  | nil => rfl
  | cons a t => simp [List.dropWhile_cons, h a (by simp)]

theorem pyStrip_eq_self {l : List Char} (h : ∀ c ∈ l, isPySpace c = false) :
    pyStrip l = l := by
  unfold pyStrip
  rw [dropWhile_eq_self_of_none h,
    dropWhile_eq_self_of_none (fun c hc => h c (List.mem_reverse.mp hc)),
    List.reverse_reverse]

theorem contains_eq_false {l : List Char} {c : Char} (h : c ∉ l) :
    l.contains c = false :=
  Bool.eq_false_iff.mpr (fun hc => h (List.elem_iff.mp hc))

/-- C6 part (a): `base64_to_bytes (bytes_to_base64 b) = b`. -/
theorem base64_roundtrip_std (bs : List Nat) (h : ∀ x ∈ bs, x < 256) :
    base64_to_bytes (bytes_to_base64 bs) = some bs := by
  have hchars := b64Encode_char_facts bs h
  unfold base64_to_bytes bytes_to_base64
  rw [pyStrip_eq_self (fun c hc => (hchars c hc).2.2.1)]
  rw [show b64UrlNormalize (b64EncodeChunks bs) = b64EncodeChunks bs from by
    unfold b64UrlNormalize
    rw [contains_eq_false (fun hm => (hchars _ hm).1 rfl),
      contains_eq_false (fun hm => (hchars _ hm).2.1 rfl)]
    simp]
  rw [show pyPad (b64EncodeChunks bs) = b64EncodeChunks bs from
    by unfold pyPad; rw [if_pos (b64Encode_length_mod bs)]]
  rw [b64_decode_encode bs h]

theorem stdToUrlChar_pad_iff (c : Char) : stdToUrlChar c = '=' ↔ c = '=' := by
  unfold stdToUrlChar
  split
  · rename_i h; subst h; simp
  · split
    · rename_i h; subst h; simp
    · exact Iff.rfl

theorem dropWhile_pad_map_stdToUrl : ∀ r : List Char,
    (r.map stdToUrlChar).dropWhile (fun x => x = '=') =
      (r.dropWhile (fun x => x = '=')).map stdToUrlChar := by
  intro r
  induction r with
  | nil => rfl
  | cons a t ih =>
    by_cases ha : a = '='
    · subst ha
      simp only [List.map_cons, List.dropWhile_cons]
      rw [if_pos (by simp [stdToUrlChar]), if_pos (by simp)]
      exact ih
    · simp only [List.map_cons, List.dropWhile_cons]
      rw [if_neg (by simpa using (not_iff_not.mpr (stdToUrlChar_pad_iff a)).mpr ha),
        if_neg (by simpa using ha)]
      simp

theorem dropTrailingPad_map_stdToUrl (l : List Char) :
    dropTrailingPad (l.map stdToUrlChar) =
      (dropTrailingPad l).map stdToUrlChar := by
  unfold dropTrailingPad
  rw [← List.map_reverse, dropWhile_pad_map_stdToUrl, List.map_reverse]

theorem mem_dropTrailingPad {c : Char} {l : List Char}
    (h : c ∈ dropTrailingPad l) : c ∈ l := by
  unfold dropTrailingPad at h
  have := List.mem_reverse.mp h
  exact List.mem_reverse.mp ((List.dropWhile_sublist _).mem this)

theorem dropWhile_pad_append {c : Char} (hne : c ≠ '=') :
    ∀ (rB X : List Char), c ∈ rB →
    (rB ++ X).dropWhile (fun x => x = '=') =
      rB.dropWhile (fun x => x = '=') ++ X := by
  intro rB
  induction rB with
  | nil =>
    intro X hmem
    cases hmem
  | cons a t ih =>
    intro X hmem
    by_cases ha : a = '='
    · subst ha
      rcases List.mem_cons.mp hmem with rfl | hmem'
      · exact absurd rfl hne
      · simp only [List.cons_append, List.dropWhile_cons]
        rw [if_pos (by simp), if_pos (by simp)]
        exact ih X hmem'
    · simp only [List.cons_append, List.dropWhile_cons]
      rw [if_neg (by simpa using ha), if_neg (by simpa using ha)]
      rfl

theorem dropTrailingPad_append_of_non_pad (A B : List Char)
    (hB : ∃ c ∈ B, c ≠ '=') :
    dropTrailingPad (A ++ B) = A ++ dropTrailingPad B := by
  unfold dropTrailingPad
  obtain ⟨c, hc, hne⟩ := hB
  rw [List.reverse_append,
    dropWhile_pad_append hne B.reverse A.reverse (List.mem_reverse.mpr hc),
    List.reverse_append, List.reverse_reverse]

theorem b64Encode_has_non_pad : ∀ (bs : List Nat), bs ≠ [] →
    (∀ x ∈ bs, x < 256) → ∃ c ∈ b64EncodeChunks bs, c ≠ '='
  | [], hne, _ => absurd rfl hne
  | [a], _, h =>
    ⟨b64Char (a / 4), by simp [b64EncodeChunks],
      (b64Char_props (a / 4) (by have := h a (by simp); omega)).1⟩
  | [a, b], _, h =>
    ⟨b64Char (a / 4), by simp [b64EncodeChunks],
      (b64Char_props (a / 4) (by have := h a (by simp); omega)).1⟩
  | a :: b :: c :: _, _, h =>
    ⟨b64Char (a / 4), by simp [b64EncodeChunks],
      (b64Char_props (a / 4) (by have := h a (by simp); omega)).1⟩

theorem pyPad_dropTrailingPad_encode : ∀ bs : List Nat, (∀ x ∈ bs, x < 256) →
    pyPad (dropTrailingPad (b64EncodeChunks bs)) = b64EncodeChunks bs
  | [], _ => rfl
  | [a], h => by
    have ha : a < 256 := h a (by simp)
    have hne1 := (b64Char_props (a / 4) (by omega)).1
    have hne2 := (b64Char_props (a % 4 * 16) (by omega)).1
    show pyPad (dropTrailingPad [b64Char (a / 4), b64Char (a % 4 * 16), '=', '=']) = _
    unfold dropTrailingPad
    simp only [List.reverse_cons, List.nil_append, List.cons_append,
      List.reverse_nil, List.dropWhile_cons]
    rw [if_pos (by simp), if_pos (by simp), if_neg (by simpa using hne2)]
    simp [pyPad, b64EncodeChunks]
  | [a, b], h => by
    have ha : a < 256 := h a (by simp)
    have hb : b < 256 := h b (by simp)
    have hne3 := (b64Char_props (b % 16 * 4) (by omega)).1
    show pyPad (dropTrailingPad
      [b64Char (a / 4), b64Char (a % 4 * 16 + b / 16), b64Char (b % 16 * 4), '=']) = _
    unfold dropTrailingPad
    simp only [List.reverse_cons, List.nil_append, List.cons_append,
      List.reverse_nil, List.dropWhile_cons]
    rw [if_pos (by simp), if_neg (by simpa using hne3)]
    simp [pyPad, b64EncodeChunks]
  | a :: b :: c :: rest, h => by
    have ha : a < 256 := h a (by simp)
    have hb : b < 256 := h b (by simp)
    have hc : c < 256 := h c (by simp)
    have hrest : ∀ x ∈ rest, x < 256 := fun x hx => h x (by simp [hx])
    rcases Decidable.em (rest = []) with rfl | hne
    · have h1 := (b64Char_props (a / 4) (by omega)).1
      have h2 := (b64Char_props (a % 4 * 16 + b / 16) (by omega)).1
      have h3 := (b64Char_props (b % 16 * 4 + c / 64) (by omega)).1
      have h4 := (b64Char_props (c % 64) (by omega)).1
      show pyPad (dropTrailingPad [b64Char (a / 4), b64Char (a % 4 * 16 + b / 16),
        b64Char (b % 16 * 4 + c / 64), b64Char (c % 64)]) = _
      unfold dropTrailingPad
      simp only [List.reverse_cons, List.nil_append, List.cons_append,
        List.reverse_nil, List.dropWhile_cons]
      rw [if_neg (by simpa using h4)]
      simp [pyPad, b64EncodeChunks]
    · have ih := pyPad_dropTrailingPad_encode rest hrest
      have hshape : b64EncodeChunks (a :: b :: c :: rest) =
          [b64Char (a / 4), b64Char (a % 4 * 16 + b / 16),
           b64Char (b % 16 * 4 + c / 64), b64Char (c % 64)] ++
           b64EncodeChunks rest := by
        simp [b64EncodeChunks]
      rw [hshape, dropTrailingPad_append_of_non_pad _ _
        (b64Encode_has_non_pad rest hne hrest)]
      set D := dropTrailingPad (b64EncodeChunks rest) with hD
      unfold pyPad at ih ⊢
      have hlen : ([b64Char (a / 4), b64Char (a % 4 * 16 + b / 16),
          b64Char (b % 16 * 4 + c / 64), b64Char (c % 64)] ++ D).length = 4 + D.length := by
        simp
        all_goals omega
      by_cases h0 : D.length % 4 = 0
      · rw [if_pos (by rw [hlen]; omega)]
        rw [if_pos h0] at ih
        rw [ih]
      · rw [if_neg (by rw [hlen]; omega)]
        rw [if_neg h0] at ih
        rw [hlen, List.append_assoc]
        rw [show 4 - (4 + D.length) % 4 = 4 - D.length % 4 from by omega]
        rw [ih]

theorem not_mem_of_contains_eq_false {l : List Char} {c : Char}
    (h : l.contains c = false) : c ∉ l := by
  intro hm
  have h2 : l.contains c = true := List.elem_iff.mpr hm
  rw [h2] at h
  cases h

/-- C6: both decodings recover the original bytes —
`base64_to_bytes (bytes_to_base64 b) = b`, and `base64_to_bytes` applied
to the URL-safe base64 encoding of `b` with its `=` padding stripped also
returns `b`. -/
theorem C6_base64_roundtrip (bs : List Nat) (h : ∀ x ∈ bs, x < 256) :
    base64_to_bytes (bytes_to_base64 bs) = some bs ∧
    base64_to_bytes (urlsafeNoPadEncode bs) = some bs := by
  have hchars := b64Encode_char_facts bs h
  refine ⟨base64_roundtrip_std bs h, ?_⟩
  have hu : urlsafeNoPadEncode bs =
      (dropTrailingPad (b64EncodeChunks bs)).map stdToUrlChar := by
    unfold urlsafeNoPadEncode
    exact dropTrailingPad_map_stdToUrl _
  have hmemD : ∀ c ∈ dropTrailingPad (b64EncodeChunks bs),
      c ∈ b64EncodeChunks bs := fun c hc => mem_dropTrailingPad hc
  unfold base64_to_bytes
  rw [hu]
  rw [pyStrip_eq_self (by
    intro c hc
    obtain ⟨c', hc', rfl⟩ := List.mem_map.mp hc
    exact (hchars c' (hmemD c' hc')).2.2.2.2)]
  have hclean2 :
      b64UrlNormalize ((dropTrailingPad (b64EncodeChunks bs)).map stdToUrlChar) =
        dropTrailingPad (b64EncodeChunks bs) := by
    unfold b64UrlNormalize
    split
    · rw [List.map_map]
      refine (List.map_congr_left fun c hc => ?_).trans (List.map_id _)
      exact (hchars c (hmemD c hc)).2.2.2.1
    · rename_i hcon
      rw [Bool.or_eq_true, not_or] at hcon
      have hnm1 := not_mem_of_contains_eq_false
        (Bool.not_eq_true _ |>.mp hcon.1)
      have hnm2 := not_mem_of_contains_eq_false
        (Bool.not_eq_true _ |>.mp hcon.2)
      refine (List.map_congr_left fun c hc => ?_).trans (List.map_id _)
      show stdToUrlChar c = c
      unfold stdToUrlChar
      split
      · rename_i hcp
        exact absurd (List.mem_map.mpr ⟨c, hc, by rw [hcp]; rfl⟩) hnm1
      · split
        · rename_i _ hcs
          exact absurd (List.mem_map.mpr ⟨c, hc, by rw [hcs]; rfl⟩) hnm2
        · rfl
  rw [hclean2, pyPad_dropTrailingPad_encode bs h, b64_decode_encode bs h]

/-- Witness for C6 at concrete bytes whose encoding exercises both the
`+`/`/` alphabet positions and the padding. -/
theorem C6_base64_roundtrip_witness :
    base64_to_bytes (bytes_to_base64 [0, 255, 16, 250, 62]) =
      some [0, 255, 16, 250, 62] ∧
    base64_to_bytes (urlsafeNoPadEncode [255, 255, 255, 251]) =
      some [255, 255, 255, 251] :=
  ⟨(C6_base64_roundtrip [0, 255, 16, 250, 62] (by decide)).1,
   (C6_base64_roundtrip [255, 255, 255, 251] (by decide)).2⟩

-- ================================
-- C3 / C7 — safety screening and determinism
-- ================================

theorem lookup_mem {α β : Type} [BEq α] [LawfulBEq α] {a : α} {t : β} :
    ∀ {l : List (α × β)}, List.lookup a l = some t → (a, t) ∈ l := by
  intro l
  induction l with
  | nil => intro h; cases h
  | cons kv rest ih =>
    obtain ⟨k, b⟩ := kv
    intro h
    rw [List.lookup_cons] at h
    rcases hbeq : a == k with _ | _
    · rw [hbeq] at h
      exact List.mem_cons_of_mem _ (ih h)
    · rw [hbeq] at h
      injection h with h'
      subst h'
      have : a = k := by simpa using hbeq
      subst this
      exact List.mem_cons_self _ _

theorem translate_if_needed_wf (cache : List (List Char × List Char))
    (hwf : TranslationCacheWF cache) (p : List Char) :
    translate_if_needed cache p = translate_if_needed [] p := by
  unfold translate_if_needed
  by_cases h1 : detect_language p = "en"
  · simp [h1]
  · by_cases h2 : TRANSLATION_RECOMMENDED.contains (detect_language p) = true
    · simp only [h1, if_neg, h2, not_true_eq_false, if_false, ite_false]
      rcases hl : List.lookup p cache with _ | t
      · rfl
      · have := hwf p t (lookup_mem hl)
        rw [this]
        rfl
    · have h2' : ¬ (detect_language p ∈ TRANSLATION_RECOMMENDED) :=
        fun hm => h2 (List.elem_iff.mpr hm)
      simp [h1, h2, h2']

/-- C3 amended: for every prompt accepted by the initial length/emptiness
validation whose (possibly translated) text contains a deny-listed term
as a case-insensitive substring, `optimize_prompt` raises the distinct
unsafe-content error (code `E202`) regardless of category, style,
quality, aspect ratio and keywords, and never returns an optimized
prompt. -/
theorem C3_unsafe_rejected (settings : OptSettings)
    (cache : List (List Char × List Char)) (prompt : List Char)
    (category : PromptCategory) (aspect_ratio style quality_level : Option String)
    (additional_keywords : Option (List (List Char)))
    (hval : validate_prompt prompt = .ok ())
    (hkw : ∃ kw ∈ PROHIBITED_KEYWORDS,
      listContains (pyLower (if settings.auto_translate then
        translate_if_needed cache prompt else prompt)) kw = true) :
    ∃ e, optimize_prompt settings cache prompt category aspect_ratio style
        quality_level additional_keywords = .error e ∧ e.code = some "E202" := by
  have hfind : (PROHIBITED_KEYWORDS.find? (fun kw =>
      listContains (pyLower (if settings.auto_translate then
        translate_if_needed cache prompt else prompt)) kw)).isSome :=
    List.find?_isSome.mpr hkw
  obtain ⟨k, hk⟩ := Option.isSome_iff_exists.mp hfind
  have hsafety : check_safety (if settings.auto_translate then
      translate_if_needed cache prompt else prompt) =
      .error ⟨"Prompt contains unsafe content: ".data ++ k, some "E202"⟩ := by
    unfold check_safety
    rw [hk]
  refine ⟨⟨"Prompt contains unsafe content: ".data ++ k, some "E202"⟩, ?_, rfl⟩
  unfold optimize_prompt
  rw [hval]
  show Except.bind (check_safety (if settings.auto_translate then
      translate_if_needed cache prompt else prompt)) _ = _
  rw [hsafety]
  rfl

/-- Witness for C3 amended at the prompt `"nsfw cat"`. -/
theorem C3_unsafe_rejected_witness :
    ∃ e, optimize_prompt ⟨true⟩ [] "nsfw cat".data .generation none none
        none none = .error e ∧ e.code = some "E202" :=
  C3_unsafe_rejected ⟨true⟩ [] "nsfw cat".data .generation none none none
    none rfl ⟨"nsfw".data, by decide, by decide⟩

theorem C3_too_long_general (n : Nat) (hn : 1997 ≤ n) :
    (∃ kw ∈ PROHIBITED_KEYWORDS,
      listContains (pyLower (if (OptSettings.mk true).auto_translate then
        translate_if_needed [] ("nsfw".data ++ List.replicate n 'x')
        else "nsfw".data ++ List.replicate n 'x')) kw = true) ∧
    optimize_prompt ⟨true⟩ [] ("nsfw".data ++ List.replicate n 'x')
        .generation none none none none =
      .error ⟨"Prompt too long (maximum 2000 characters)".data, some "E201"⟩ ∧
    (some "E201" : Option String) ≠ some "E202" := by
  have hdata : "nsfw".data = ['n', 's', 'f', 'w'] := rfl
  have hchars : ∀ c ∈ "nsfw".data ++ List.replicate n 'x',
      c = 'n' ∨ c = 's' ∨ c = 'f' ∨ c = 'w' ∨ c = 'x' := by
    intro c hc
    rcases List.mem_append.mp hc with h | h
    · rw [hdata] at h
      simp only [List.mem_cons, List.not_mem_nil, or_false] at h
      tauto
    · exact Or.inr (Or.inr (Or.inr (Or.inr (List.mem_replicate.mp h).2)))
  have hko : ("nsfw".data ++ List.replicate n 'x').any isKoreanChar = false := by
    rw [List.any_eq_false]
    intro c hc
    rcases hchars c hc with rfl | rfl | rfl | rfl | rfl <;> decide
  have hja : ("nsfw".data ++ List.replicate n 'x').any isJapaneseClassChar = false := by
    rw [List.any_eq_false]
    intro c hc
    rcases hchars c hc with rfl | rfl | rfl | rfl | rfl <;> decide
  have hzh : ("nsfw".data ++ List.replicate n 'x').any isCJKChar = false := by
    rw [List.any_eq_false]
    intro c hc
    rcases hchars c hc with rfl | rfl | rfl | rfl | rfl <;> decide
  have hru : ("nsfw".data ++ List.replicate n 'x').any isCyrillicLowerChar = false := by
    rw [List.any_eq_false]
    intro c hc
    rcases hchars c hc with rfl | rfl | rfl | rfl | rfl <;> decide
  have hdet : detect_language ("nsfw".data ++ List.replicate n 'x') = "en" := by
    unfold detect_language
    rw [hko, hja, hzh, hru]
    rfl
  have htrans : translate_if_needed [] ("nsfw".data ++ List.replicate n 'x') =
      "nsfw".data ++ List.replicate n 'x' := by
    unfold translate_if_needed
    rw [hdet]
    rfl
  have hlower : pyLower ("nsfw".data ++ List.replicate n 'x') =
      "nsfw".data ++ List.replicate n 'x' := by
    unfold pyLower
    refine (List.map_congr_left fun c hc => ?_).trans (List.map_id _)
    rcases hchars c hc with rfl | rfl | rfl | rfl | rfl <;> decide
  have hlen : ("nsfw".data ++ List.replicate n 'x').length = 4 + n := by
    rw [List.length_append, List.length_replicate, hdata]
    rfl
  have hstrip : pyStrip ("nsfw".data ++ List.replicate n 'x') =
      "nsfw".data ++ List.replicate n 'x' := by
    refine pyStrip_eq_self ?_
    intro c hc
    rcases hchars c hc with rfl | rfl | rfl | rfl | rfl <;> decide
  have hne : "nsfw".data ++ List.replicate n 'x' ≠ [] := by
    rw [hdata]
    exact List.cons_ne_nil _ _
  have hval : validate_prompt ("nsfw".data ++ List.replicate n 'x') =
      .error ⟨"Prompt too long (maximum 2000 characters)".data, some "E201"⟩ := by
    unfold validate_prompt
    rw [if_neg (show ¬("nsfw".data ++ List.replicate n 'x' = [] ∨
        pyStrip ("nsfw".data ++ List.replicate n 'x') = []) from fun h => by
      rcases h with h | h
      · exact hne h
      · rw [hstrip] at h
        exact hne h),
      if_neg (by rw [hlen]; unfold MIN_PROMPT_LENGTH; omega),
      if_pos (by rw [hlen]; unfold MAX_PROMPT_LENGTH; omega)]
  refine ⟨⟨"nsfw".data, ?_, ?_⟩, ?_, by decide⟩
  · unfold PROHIBITED_KEYWORDS
    exact List.mem_cons_self _ _
  · show listContains (pyLower (translate_if_needed [] _)) _ = true
    rw [htrans, hlower]
    exact listContains_of_mem_suffix [] "nsfw".data (List.replicate n 'x')
  · unfold optimize_prompt
    rw [hval]
    rfl

/-- C3 counterexample: a 2004-character prompt containing the
deny-listed term `"nsfw"` is rejected by the initial length validation
with code `E201` (`PROMPT_TOO_LONG`), not the unsafe-content code `E202`
the claim requires for every prompt containing a deny-listed term. -/
theorem C3_length_gate_counterexample :
    (∃ kw ∈ PROHIBITED_KEYWORDS,
      listContains (pyLower (if (OptSettings.mk true).auto_translate then
        translate_if_needed [] ("nsfw".data ++ List.replicate 2000 'x')
        else "nsfw".data ++ List.replicate 2000 'x')) kw = true) ∧
    optimize_prompt ⟨true⟩ [] ("nsfw".data ++ List.replicate 2000 'x')
        .generation none none none none =
      .error ⟨"Prompt too long (maximum 2000 characters)".data, some "E201"⟩ ∧
    (some "E201" : Option String) ≠ some "E202" :=
  C3_too_long_general 2000 (by omega)

/-- C7: `optimize_prompt` is deterministic — two invocations with
identical arguments return identical results, in the same or different
optimizer instances, i.e. for any two reachable translation-cache
states. -/
theorem C7_determinism (settings : OptSettings)
    (c1 c2 : List (List Char × List Char))
    (h1 : TranslationCacheWF c1) (h2 : TranslationCacheWF c2)
    (prompt : List Char) (category : PromptCategory)
    (aspect_ratio style quality_level : Option String)
    (additional_keywords : Option (List (List Char))) :
    optimize_prompt settings c1 prompt category aspect_ratio style
        quality_level additional_keywords =
      optimize_prompt settings c2 prompt category aspect_ratio style
        quality_level additional_keywords := by
  simp only [optimize_prompt]
  rw [translate_if_needed_wf c1 h1 prompt, translate_if_needed_wf c2 h2 prompt]

/-- Witness for C7: a fresh instance (empty cache) and an instance whose
cache already holds the translation of `"고양이"` produce identical
output. -/
theorem C7_determinism_witness :
    optimize_prompt ⟨true⟩ [("고양이".data, "cat".data)] "고양이".data .generation
        none none (some "high") none =
      optimize_prompt ⟨true⟩ [] "고양이".data .generation none none
        (some "high") none :=
  C7_determinism ⟨true⟩ [("고양이".data, "cat".data)] [] (by
    intro p t h
    simp only [List.mem_cons, List.not_mem_nil, or_false, Prod.mk.injEq] at h
    obtain ⟨rfl, rfl⟩ := h
    decide) (fun p t h => absurd h (List.not_mem_nil _)) "고양이".data .generation
    none none (some "high") none

end Nanobanana

namespace Nanobanana

theorem collapseWs_cons_nonws (c : Char) (rest : List Char)
    (h : isPySpace c = false) : collapseWs (c :: rest) = c :: collapseWs rest := by
  cases rest with
  | nil => simp [collapseWs, h]
  | cons d ds => simp [collapseWs, h]

theorem collapseWs_ws_nonws (c d : Char) (rest : List Char)
    (hc : isPySpace c = true) (hd : isPySpace d = false) :
    collapseWs (c :: d :: rest) = ' ' :: collapseWs (d :: rest) := by
  simp [collapseWs, hc, hd]

theorem collapseWs_replicate_z (n : Nat) :
    collapseWs (List.replicate n 'z') = List.replicate n 'z' := by
  induction n with
  | zero => rfl
  | succ k ih =>
    rw [List.replicate_succ, collapseWs_cons_nonws _ _ (by decide), ih]

theorem reSubCommaRunsGo_nocomma_self :
    ∀ (fuel : Nat) (l : List Char), (∀ c ∈ l, ¬ c = ',') → l.length ≤ fuel →
    reSubCommaRunsGo fuel l = l := by
  intro fuel
  induction fuel with
  | zero =>
    intro l _ hlen
    cases l with
    | nil => rfl
    | cons a t => simp at hlen
  | succ f ih =>
    intro l hl hlen
    cases l with
    | nil => rfl
    | cons a t =>
      have ha := hl a (by simp)
      simp only [reSubCommaRunsGo]
      rw [if_neg ha]
      rw [ih t (fun c hc => hl c (by simp [hc])) (by simp at hlen; omega)]

theorem reSubCommaRunsGo_S :
    ∀ (fuel : Nat) (A : List Char), (∀ c ∈ A, ¬ c = ',') →
    ∀ (Kt : List Char), (∀ c ∈ Kt, ¬ c = ',') → (∀ c ∈ Kt, isPySpace c = false) →
    (A ++ ',' :: ' ' :: Kt).length ≤ fuel →
    reSubCommaRunsGo fuel (A ++ ',' :: ' ' :: Kt) = A ++ ',' :: ' ' :: Kt := by
  intro fuel
  induction fuel with
  | zero =>
    intro A _ Kt _ _ hlen
    simp at hlen
  | succ f ih =>
    intro A hA Kt hKc hKw hlen
    cases A with
    | nil =>
      simp only [List.nil_append]
      simp only [reSubCommaRunsGo, if_true]
      have hdrop : (' ' :: Kt).dropWhile isPySpace = Kt.dropWhile isPySpace := by
        rw [List.dropWhile_cons, if_pos (by decide)]
      have hdrop2 : Kt.dropWhile isPySpace = Kt :=
        dropWhile_eq_self_of_none hKw
      have hheadD : ((' ' :: Kt).dropWhile isPySpace).headD 'x' ≠ ',' := by
        rw [hdrop, hdrop2]
        cases Kt with
        | nil => decide
        | cons k kt => exact hKc k (by simp)
      rw [if_neg (by simpa using hheadD)]
      congr 1
      cases f with
      | zero =>
        simp only [List.nil_append, List.length_cons] at hlen
        omega
      | succ f2 =>
        simp only [reSubCommaRunsGo]
        rw [if_neg (by decide)]
        congr 1
        refine reSubCommaRunsGo_nocomma_self f2 Kt hKc ?_
        simp at hlen
        omega
    | cons a A2 =>
      have ha := hA a (by simp)
      simp only [List.cons_append, reSubCommaRunsGo]
      rw [if_neg ha]
      congr 1
      refine ih A2 (fun c hc => hA c (by simp [hc])) Kt hKc hKw ?_
      simp at hlen ⊢
      omega

theorem reSubCommaSpacingGo_nocomma_self :
    ∀ (fuel : Nat) (l : List Char), (∀ c ∈ l, ¬ c = ',') → l.length ≤ fuel →
    reSubCommaSpacingGo fuel l = l := by
  intro fuel
  induction fuel with
  | zero =>
    intro l _ hlen
    cases l with
    | nil => rfl
    | cons a t => simp at hlen
  | succ f ih =>
    intro l hl hlen
    cases l with
    | nil => rfl
    | cons a t =>
      have ha := hl a (by simp)
      simp only [reSubCommaSpacingGo]
      rw [if_neg ha]
      rw [ih t (fun c hc => hl c (by simp [hc])) (by simp at hlen; omega)]

theorem reSubCommaSpacingGo_S :
    ∀ (fuel : Nat) (A : List Char), (∀ c ∈ A, ¬ c = ',') →
    ∀ (Kt : List Char), (∀ c ∈ Kt, ¬ c = ',') → (∀ c ∈ Kt, isPySpace c = false) →
    (A ++ ',' :: ' ' :: Kt).length ≤ fuel →
    reSubCommaSpacingGo fuel (A ++ ',' :: ' ' :: Kt) = A ++ ',' :: ' ' :: Kt := by
  intro fuel
  induction fuel with
  | zero =>
    intro A _ Kt _ _ hlen
    simp at hlen
  | succ f ih =>
    intro A hA Kt hKc hKw hlen
    cases A with
    | nil =>
      simp only [List.nil_append]
      simp only [reSubCommaSpacingGo, if_true]
      have hdrop : (' ' :: Kt).dropWhile isPySpace = Kt := by
        rw [List.dropWhile_cons, if_pos (by decide)]
        exact dropWhile_eq_self_of_none hKw
      rw [hdrop]
      congr 2
      refine reSubCommaSpacingGo_nocomma_self f Kt hKc ?_
      simp at hlen
      omega
    | cons a A2 =>
      have ha := hA a (by simp)
      simp only [List.cons_append, reSubCommaSpacingGo]
      rw [if_neg ha]
      congr 1
      refine ih A2 (fun c hc => hA c (by simp [hc])) Kt hKc hKw ?_
      simp at hlen ⊢
      omega

theorem splitOnChar_nosep (sep : Char) :
    ∀ (l : List Char), (∀ c ∈ l, ¬ c = sep) → splitOnChar sep l = [l] := by
  intro l
  induction l with
  | nil => intro _; rfl
  | cons a t ih =>
    intro hl
    simp only [splitOnChar]
    rw [if_neg (hl a (by simp)), ih (fun c hc => hl c (by simp [hc]))]

theorem splitOnChar_single (sep : Char) :
    ∀ (A B : List Char), (∀ c ∈ A, ¬ c = sep) → (∀ c ∈ B, ¬ c = sep) →
    splitOnChar sep (A ++ sep :: B) = [A, B] := by
  intro A
  induction A with
  | nil =>
    intro B _ hB
    simp only [List.nil_append, splitOnChar, if_true]
    rw [splitOnChar_nosep sep B hB]
  | cons a A2 ih =>
    intro B hA hB
    simp only [List.cons_append, splitOnChar, List.append_eq]
    rw [if_neg (hA a (by simp)), ih B (fun c hc => hA c (by simp [hc])) hB]

theorem dropWhile_append_of_forall {p : Char → Bool} :
    ∀ {A : List Char} (B : List Char), (∀ c ∈ A, p c = true) →
    (A ++ B).dropWhile p = B.dropWhile p := by
  intro A
  induction A with
  | nil => intro B _; rfl
  | cons a t ih =>
    intro B hA
    simp only [List.cons_append, List.dropWhile_cons, hA a (by simp), if_true]
    exact ih B (fun c hc => hA c (by simp [hc]))

end Nanobanana

namespace Nanobanana

theorem pyStrip_eq_self_of_ends (a : Char) (mid : List Char) (b : Char)
    (ha : isPySpace a = false) (hb : isPySpace b = false) :
    pyStrip (a :: (mid ++ [b])) = a :: (mid ++ [b]) := by
  unfold pyStrip
  rw [List.dropWhile_cons, if_neg (by simp [ha])]
  rw [List.reverse_cons, List.reverse_append]
  simp only [List.reverse_cons, List.reverse_nil, List.nil_append,
    List.cons_append, List.singleton_append]
  rw [List.dropWhile_cons, if_neg (by simp [hb])]
  simp

theorem rstrip_eq_self_of_end (l : List Char) (b : Char)
    (hb : (b = ',' || b = ' ') = false) :
    rstripCommaSpace (l ++ [b]) = l ++ [b] := by
  unfold rstripCommaSpace
  rw [List.reverse_append]
  simp only [List.reverse_cons, List.reverse_nil, List.nil_append,
    List.singleton_append]
  rw [List.dropWhile_cons, if_neg (by simp_all)]
  rw [show (b :: l.reverse : List Char) = ([b] ++ l.reverse : List Char) from rfl]
  rw [List.reverse_append, List.reverse_reverse]
  simp

set_option maxRecDepth 20000 in
theorem optimize_structure_S (m : Nat) (hm : 26 ≤ m) :
    optimize_structure ("Generate an image of crisp".data ++
        ',' :: ' ' :: List.replicate (m + 1) 'z') =
      "Generate an image of crisp".data ++
        ',' :: ' ' :: List.replicate (m + 1) 'z' := by
  have hPnc : ∀ c ∈ "Generate an image of crisp".data, ¬ c = ',' := by decide
  have hKz : ∀ c ∈ List.replicate (m + 1) 'z', c = 'z' :=
    fun c hc => (List.mem_replicate.mp hc).2
  have hKnc : ∀ c ∈ List.replicate (m + 1) 'z', ¬ c = ',' := by
    intro c hc
    rw [hKz c hc]
    decide
  have hKnw : ∀ c ∈ List.replicate (m + 1) 'z', isPySpace c = false := by
    intro c hc
    rw [hKz c hc]
    decide
  have hform : "Generate an image of crisp".data ++
      ',' :: ' ' :: List.replicate (m + 1) 'z' =
      'G' :: (("enerate an image of crisp".data ++
        ',' :: ' ' :: List.replicate m 'z') ++ ['z']) := by
    rw [show "Generate an image of crisp".data =
      'G' :: "enerate an image of crisp".data from rfl]
    rw [List.replicate_succ']
    simp [List.cons_append, List.append_assoc]
  have h1 : pyStrip ("Generate an image of crisp".data ++
      ',' :: ' ' :: List.replicate (m + 1) 'z') =
      "Generate an image of crisp".data ++
      ',' :: ' ' :: List.replicate (m + 1) 'z' := by
    rw [hform, pyStrip_eq_self_of_ends 'G' _ 'z' (by decide) (by decide), ← hform]
  have h2 : collapseWs ("Generate an image of crisp".data ++
      ',' :: ' ' :: List.replicate (m + 1) 'z') =
      "Generate an image of crisp".data ++
      ',' :: ' ' :: List.replicate (m + 1) 'z' := by
    rw [show "Generate an image of crisp".data =
      ['G','e','n','e','r','a','t','e',' ','a','n',' ','i','m','a','g','e',' ',
       'o','f',' ','c','r','i','s','p'] from rfl]
    rw [List.replicate_succ]
    simp only [List.cons_append, List.nil_append]
    simp [collapseWs_cons_nonws, collapseWs_ws_nonws, collapseWs_replicate_z,
      isPySpace]
  have h3 : reSubCommaRuns ("Generate an image of crisp".data ++
      ',' :: ' ' :: List.replicate (m + 1) 'z') =
      "Generate an image of crisp".data ++
      ',' :: ' ' :: List.replicate (m + 1) 'z' := by
    unfold reSubCommaRuns
    exact reSubCommaRunsGo_S _ _ hPnc _ hKnc hKnw (le_refl _)
  have h4 : reSubCommaSpacing ("Generate an image of crisp".data ++
      ',' :: ' ' :: List.replicate (m + 1) 'z') =
      "Generate an image of crisp".data ++
      ',' :: ' ' :: List.replicate (m + 1) 'z' := by
    unfold reSubCommaSpacing
    exact reSubCommaSpacingGo_S _ _ hPnc _ hKnc hKnw (le_refl _)
  have hform2 : "Generate an image of crisp".data ++
      ',' :: ' ' :: List.replicate (m + 1) 'z' =
      ("Generate an image of crisp".data ++
        ',' :: ' ' :: List.replicate m 'z') ++ ['z'] := by
    rw [List.replicate_succ']
    simp [List.cons_append, List.append_assoc]
  have h5 : rstripCommaSpace ("Generate an image of crisp".data ++
      ',' :: ' ' :: List.replicate (m + 1) 'z') =
      "Generate an image of crisp".data ++
      ',' :: ' ' :: List.replicate (m + 1) 'z' := by
    rw [hform2, rstrip_eq_self_of_end _ 'z' (by decide), ← hform2]
  have h6 : splitOnComma ("Generate an image of crisp".data ++
      ',' :: ' ' :: List.replicate (m + 1) 'z') =
      ["Generate an image of crisp".data, ' ' :: List.replicate (m + 1) 'z'] := by
    unfold splitOnComma
    exact splitOnChar_single ',' _ _ hPnc (by
      intro c hc
      rcases List.mem_cons.mp hc with rfl | hc'
      · decide
      · exact hKnc c hc')
  have h7 : pyStrip (' ' :: List.replicate (m + 1) 'z') =
      List.replicate (m + 1) 'z' := by
    unfold pyStrip
    rw [List.dropWhile_cons, if_pos (by decide)]
    rw [dropWhile_eq_self_of_none hKnw]
    rw [List.reverse_replicate, List.replicate_succ]
    rw [List.dropWhile_cons, if_neg (by decide)]
    rw [← List.replicate_succ, List.reverse_replicate]
  have h8 : pyStrip "Generate an image of crisp".data =
      "Generate an image of crisp".data := by decide
  have hpl : (pyLower "Generate an image of crisp".data).length = 26 := by decide
  have h9 : pyLower (List.replicate (m + 1) 'z') = List.replicate (m + 1) 'z' := by
    unfold pyLower
    rw [List.map_replicate]
    rfl
  have hKne : List.replicate (m + 1) 'z' ≠ ([] : List Char) := by
    rw [List.replicate_succ]
    exact List.cons_ne_nil _ _
  have hncon : ¬ (([pyLower "Generate an image of crisp".data].contains
      (pyLower (List.replicate (m + 1) 'z'))) = true) := by
    rw [h9]
    intro hcon
    have hmem := List.elem_iff.mp hcon
    simp only [List.mem_cons, List.not_mem_nil, or_false] at hmem
    have hlen := congrArg List.length hmem
    rw [List.length_replicate, hpl] at hlen
    omega
  have h10 : dedupClauses [] ["Generate an image of crisp".data,
      List.replicate (m + 1) 'z'] =
      ["Generate an image of crisp".data, List.replicate (m + 1) 'z'] := by
    rw [show dedupClauses [] ["Generate an image of crisp".data,
        List.replicate (m + 1) 'z'] =
        if ¬ ([] : List (List Char)).contains
            (pyLower "Generate an image of crisp".data) ∧
            "Generate an image of crisp".data ≠ [] then
          "Generate an image of crisp".data ::
            dedupClauses [pyLower "Generate an image of crisp".data]
              [List.replicate (m + 1) 'z']
        else dedupClauses [] [List.replicate (m + 1) 'z'] from rfl]
    rw [if_pos ⟨by decide, by decide⟩]
    rw [show dedupClauses [pyLower "Generate an image of crisp".data]
        [List.replicate (m + 1) 'z'] =
        if ¬ ([pyLower "Generate an image of crisp".data].contains
            (pyLower (List.replicate (m + 1) 'z'))) ∧
            List.replicate (m + 1) 'z' ≠ ([] : List Char) then
          List.replicate (m + 1) 'z' ::
            dedupClauses [pyLower (List.replicate (m + 1) 'z'),
              pyLower "Generate an image of crisp".data] []
        else dedupClauses [pyLower "Generate an image of crisp".data] []
        from rfl]
    rw [if_pos ⟨hncon, hKne⟩]
    rfl
  have h11 : joinCommaSpace ["Generate an image of crisp".data,
      List.replicate (m + 1) 'z'] =
      "Generate an image of crisp".data ++
      ',' :: ' ' :: List.replicate (m + 1) 'z' := by
    simp only [joinCommaSpace]
  simp only [optimize_structure]
  rw [h1, h2, h3, h4, h5, h6]
  simp only [List.map_cons, List.map_nil]
  rw [h7, h8, h10, h11]

end Nanobanana


namespace Nanobanana

theorem pyLower_replicate_z (k : Nat) :
    pyLower (List.replicate k 'z') = List.replicate k 'z' := by
  unfold pyLower
  rw [List.map_replicate]
  rfl

theorem rev_shape (k : Nat) (P : List Char) :
    (P ++ ',' :: ' ' :: List.replicate k 'z').reverse =
    List.replicate k 'z' ++ ' ' :: ',' :: P.reverse := by
  rw [List.reverse_append]
  simp only [List.reverse_cons, List.reverse_replicate, List.append_assoc,
    List.cons_append, List.singleton_append, List.nil_append]

theorem any_comma (k : Nat) (P : List Char) :
    (List.replicate k 'z' ++ ' ' :: ',' :: P).any (fun c => c = ',') = true := by
  rw [List.any_eq_true]
  exact ⟨',', by simp, by decide⟩

theorem dropWhile_shape (k : Nat) (P : List Char) :
    (List.replicate k 'z' ++ ' ' :: ',' :: P).dropWhile (fun c => ¬ c = ',') =
    ',' :: P := by
  have h := dropWhile_append_of_forall (p := fun c => ¬ c = ',')
    (A := List.replicate k 'z') (' ' :: ',' :: P)
    (by
      intro c hc
      rw [(List.mem_replicate.mp hc).2]
      decide)
  rw [h, List.dropWhile_cons, if_pos (by decide), List.dropWhile_cons,
    if_neg (by decide)]

theorem S2_length (n : Nat) :
    ("Generate an image of crisp".data ++
      ',' :: ' ' :: List.replicate n 'z').length = 28 + n := by
  rw [List.length_append, show ("Generate an image of crisp".data).length = 26
    from by decide]
  simp only [List.length_cons, List.length_replicate]
  omega

theorem vfpl_S (n : Nat) (hn : 1975 ≤ n) :
    validate_final_prompt_local ("Generate an image of crisp".data ++
      ',' :: ' ' :: List.replicate n 'z') = "Generate an image of crisp".data := by
  have hPlen : ("Generate an image of crisp".data).length = 26 := by decide
  have hcut : ("Generate an image of crisp".data ++
      ',' :: ' ' :: List.replicate n 'z').take MAX_PROMPT_LENGTH =
      "Generate an image of crisp".data ++
      ',' :: ' ' :: List.replicate 1972 'z' := by
    rw [List.take_append_eq_append_take,
      List.take_of_length_le (by rw [hPlen]; decide),
      show MAX_PROMPT_LENGTH - ("Generate an image of crisp".data).length = 1974
        from by rw [hPlen]; decide,
      show (1974 : Nat) = 1973 + 1 from rfl, List.take_succ_cons,
      show (1973 : Nat) = 1972 + 1 from rfl, List.take_succ_cons,
      List.take_replicate, min_eq_left (by omega)]
  have hunf : validate_final_prompt_local ("Generate an image of crisp".data ++
      ',' :: ' ' :: List.replicate n 'z') =
      if ("Generate an image of crisp".data ++
          ',' :: ' ' :: List.replicate n 'z').length > MAX_PROMPT_LENGTH then
        if ((("Generate an image of crisp".data ++
            ',' :: ' ' :: List.replicate n 'z').take
              MAX_PROMPT_LENGTH).reverse.any (fun c => c = ',')) then
          (((("Generate an image of crisp".data ++
            ',' :: ' ' :: List.replicate n 'z').take
              MAX_PROMPT_LENGTH).reverse.dropWhile
                (fun c => ¬ c = ',')).drop 1).reverse
        else ("Generate an image of crisp".data ++
          ',' :: ' ' :: List.replicate n 'z').take MAX_PROMPT_LENGTH
      else "Generate an image of crisp".data ++
        ',' :: ' ' :: List.replicate n 'z' := rfl
  rw [hunf, if_pos (by
      rw [S2_length]
      simp only [MAX_PROMPT_LENGTH]
      omega),
    hcut, rev_shape, if_pos (any_comma _ _), dropWhile_shape,
    show ((',' :: ("Generate an image of crisp".data).reverse).drop 1) =
      ("Generate an image of crisp".data).reverse from rfl,
    List.reverse_reverse]

theorem add_keywords_S (n : Nat) (hn : 1975 ≤ n) :
    add_keywords "Generate an image of crisp".data [List.replicate n 'z'] =
    "Generate an image of crisp".data ++
      ',' :: ' ' :: List.replicate n 'z' := by
  have hcon : listContains (pyLower "Generate an image of crisp".data)
      (pyLower (List.replicate n 'z')) = false := by
    rw [pyLower_replicate_z]
    exact listContains_eq_false_of_witness (c := 'z')
      (List.mem_replicate.mpr ⟨by omega, rfl⟩) (by decide)
  have hfilt : List.filter (fun kw =>
      ¬ listContains (pyLower "Generate an image of crisp".data) (pyLower kw))
      [List.replicate n 'z'] = [List.replicate n 'z'] := by
    simp [hcon]
  simp only [add_keywords]
  rw [hfilt, if_pos (List.cons_ne_nil _ _), List.append_assoc]
  rfl

theorem optimize_prompt_overlong (n : Nat) (hn : 1975 ≤ n) :
    optimize_prompt ⟨true⟩ [] "crisp".data .generation none none none
      (some [List.replicate n 'z']) =
    .ok ("Generate an image of crisp".data ++
      ',' :: ' ' :: List.replicate n 'z') := by
  have hpre : optimize_prompt ⟨true⟩ [] "crisp".data .generation none none none
      (some [List.replicate n 'z']) =
      .ok (optimize_structure (add_keywords "Generate an image of crisp".data
        [List.replicate n 'z'])) := rfl
  rw [hpre, add_keywords_S n hn]
  obtain ⟨m, rfl⟩ : ∃ m, n = m + 1 := ⟨n - 1, by omega⟩
  rw [optimize_structure_S m (by omega)]

end Nanobanana


namespace Nanobanana

/-- C2: refuted. On the in-range prompt `"crisp"` with one 2000-character
additional keyword, `optimize_prompt` succeeds and returns the assembled
prompt of length 2028 > `MAX_PROMPT_LENGTH`; the comma-boundary truncation
that `_validate_final_prompt` computes (here, the bare category-prefixed
prompt) is assigned to a local variable and discarded, so the returned
value is neither bounded by the limit nor equal to that truncation. -/
theorem C2_truncation_discarded :
    optimize_prompt ⟨true⟩ [] "crisp".data .generation none none none
        (some [List.replicate 2000 'z']) =
      .ok ("Generate an image of crisp".data ++
        ',' :: ' ' :: List.replicate 2000 'z') ∧
    MAX_PROMPT_LENGTH < ("Generate an image of crisp".data ++
      ',' :: ' ' :: List.replicate 2000 'z').length ∧
    validate_final_prompt_local ("Generate an image of crisp".data ++
      ',' :: ' ' :: List.replicate 2000 'z') = "Generate an image of crisp".data ∧
    "Generate an image of crisp".data ≠
      "Generate an image of crisp".data ++
        ',' :: ' ' :: List.replicate 2000 'z' := by
  refine ⟨optimize_prompt_overlong 2000 (by norm_num), ?_, ?_, ?_⟩
  · rw [S2_length 2000]
    simp only [MAX_PROMPT_LENGTH]
    norm_num
  · exact vfpl_S 2000 (by norm_num)
  · intro h
    have hl := congrArg List.length h
    rw [S2_length 2000, show ("Generate an image of crisp".data).length = 26
      from by decide] at hl
    omega

end Nanobanana
